import Mathlib

/-!
Verification development for the `JsonRegistry` entity registry and
cross-reference validation engine of the gts-kit repository.

The registry (`src`: class `JsonRegistry`) is embedded as a pure state
transformer over an explicit record of JavaScript-`Map`-like association
lists.  External collaborators (the entity-extraction capability and the
Ajv schema-capability adapter) are abstracted as function parameters in a
context record, exactly at the interface boundary the code uses them.
-/

namespace GtsKit

/-! ## JavaScript `Map` model: insertion-ordered association lists -/

/-- A JavaScript `Map` with string keys: an insertion-ordered association
list.  `set` updates an existing key in place, otherwise appends;
`delete` removes the key; iteration order is list order. -/
abbrev JsMap (α : Type) := List (String × α)

/-- `Map.get`: value of the entry with the given key. -/
def mget {α : Type} : JsMap α → String → Option α
  | [], _ => none
  | kv :: rest, k => if kv.1 = k then some kv.2 else mget rest k

/-- `Map.set`: update an existing key in place, otherwise append at the end. -/
def mset {α : Type} (m : JsMap α) (k : String) (v : α) : JsMap α :=
  match m with
  | [] => [(k, v)]
  | kv :: rest => if kv.1 = k then (k, v) :: rest else kv :: mset rest k v

/-- `Map.delete`: remove the entry with the given key. -/
def mdel {α : Type} (m : JsMap α) (k : String) : JsMap α :=
  match m with
  | [] => []
  | kv :: rest => if kv.1 = k then mdel rest k else kv :: mdel rest k

/-- `Map.has`. -/
def mhas {α : Type} : JsMap α → String → Bool
  | [], _ => false
  | kv :: rest, k => if kv.1 = k then true else mhas rest k

/-- The key list of a map, in insertion order. -/
def keysOf {α : Type} (m : JsMap α) : List String :=
  m.map (fun kv => kv.1)

/-- Well-formedness of a JS map: keys are pairwise distinct (a real
JavaScript `Map` cannot hold duplicate keys). -/
def ndk {α : Type} (m : JsMap α) : Prop :=
  (keysOf m).Nodup

/-! ## Data model -/

/-- A structured document: either an array of elements or an opaque
non-array document (the registry only ever inspects `Array.isArray`). -/
inductive JsonContent where
  | atom (tag : String)
  | arr (elems : List JsonContent)

/-- One normalized validation error entry (`{instancePath, schemaPath,
keyword, message, params}`). -/
structure ValidationError where
  instancePath : String
  schemaPath : String
  keyword : String
  message : String
  params : List (String × String)
deriving DecidableEq, Repr

/-- An outgoing GTS reference `{id, sourcePath}`. -/
structure GtsRef where
  id : String
  sourcePath : String
deriving DecidableEq, Repr

/-- Entity kind: the `JsonSchema` / `JsonObj` class distinction. -/
inductive EntityKind where
  | schema
  | obj
deriving DecidableEq, Repr

/-- A GTS entity as the registry consumes it from the extraction
capability: identifier, kind, `isGtsEntity()` classification, declared
`schemaId` (objects), the id-field names used for error locations,
outgoing references, wrapped content and the mutable validation result
(`none` = never validated). -/
structure JsonEntity where
  id : String
  kind : EntityKind
  isGts : Bool
  schemaId : Option String
  selectedSchemaIdField : Option String
  selectedEntityIdField : Option String
  gtsRefs : List GtsRef
  content : JsonContent
  validation : Option (List ValidationError)

/-- A `JsonFile`: one ingested document source with its parse-level
validation errors. -/
structure JsonFile where
  path : String
  name : String
  content : JsonContent
  parseErrors : List ValidationError

/-- The `JsonRegistry` state: the seven indices, the fetch cache and the
default-file pointer. -/
structure RegState where
  jsonObjs : JsMap JsonEntity
  jsonSchemas : JsMap JsonEntity
  jsonFiles : JsMap JsonFile
  invalidFiles : JsMap JsonFile
  jsonFileObjs : JsMap (List String)
  jsonFileSchemas : JsMap (List String)
  absentGtsEntities : JsMap JsonEntity
  fetchCache : JsMap Unit
  defaultFilePath : Option String

/-- The freshly constructed registry. -/
def emptyRegistry : RegState :=
  { jsonObjs := [], jsonSchemas := [], jsonFiles := [], invalidFiles := []
    jsonFileObjs := [], jsonFileSchemas := [], absentGtsEntities := []
    fetchCache := [], defaultFilePath := none }

/-! ## External collaborators

`entities.js` is not part of the provided sources; its behaviour is
either abstracted at the interface boundary (entity extraction, file
parse errors, the Ajv adapter: fields of `Ctx`) or modelled from the
spec (`normalizeGtsId`, `createAbsentEntity`). -/

/-- Consume a literal character sequence from the front of a list,
returning the remainder on success. -/
def consumeLit : List Char → List Char → Option (List Char)
  | [], cs => some cs
  | _ :: _, [] => none
  | l :: ls, c :: cs => if c = l then consumeLit ls cs else none

/-- Modelled from the spec: `normalizeGtsId` lives in `entities.js`,
which is missing from the provided sources.  Per the spec ("Normalizes
the identifier by stripping a fixed vendor URI prefix before lookup")
and the source comment at `resolveSchema` ("stripping gts:// prefix"),
it removes a leading `gts://` when present and is the identity
otherwise. -/
def normalizeGtsId (s : String) : String :=
  match consumeLit "gts://".toList s.toList with
  | some rest => String.mk rest
  | none => s

/-- Modelled from the spec: `createAbsentEntity` lives in `entities.js`,
which is missing from the provided sources.  Per the spec it
materializes a placeholder pseudo-entity for a referenced-but-missing
identifier, determined by that identifier alone. -/
def createAbsentEntity (id : String) : JsonEntity :=
  { id := id, kind := EntityKind.obj, isGts := false, schemaId := none
    selectedSchemaIdField := none, selectedEntityIdField := none
    gtsRefs := [], content := JsonContent.atom "", validation := none }

/-- Result of the Ajv `loadSchema` callback for one `$ref` URI. -/
inductive LoaderResult where
  | metaSchema
  | found (c : JsonContent)
  | notFound (id : String)

/-- The external collaborators, fixed for one ingestion/validation run:
the `JsonFile` parse check and the extraction capability (both in the
missing `entities.js`, abstracted at the interface the registry uses,
with the GTS config already applied), `decodeGtsId` (also
`entities.js`), the CSP environment flag checked before Phase B, and the
Ajv adapter invocations, each given the `loadSchema` resolution callback
the registry builds. -/
structure Ctx where
  fileErrors : String → String → JsonContent → List ValidationError
  createEntity : JsonFile → Option Nat → JsonContent → Option JsonEntity
  decodeGtsId : String → String
  vscodeEnv : Bool
  ajvCompileSchema : (String → LoaderResult) → JsonContent → List ValidationError
  ajvValidateObj : (String → LoaderResult) → JsonContent → JsonContent → List ValidationError

/-- `new JsonFile(path, name, content)`. -/
def mkJsonFile (ctx : Ctx) (path name : String) (content : JsonContent) : JsonFile :=
  { path := path, name := name, content := content
    parseErrors := ctx.fileErrors path name content }

/-! ## Source-path classification and conversion -/

/-- Does `examples` followed by `[`, `.` or end-of-string start here?
The `examples(?:\[|$|\.)` part of the source regexes. -/
def examplesTail (cs : List Char) : Bool :=
  match consumeLit "examples".toList cs with
  | none => false
  | some [] => true
  | some (c :: _) => c = '[' || c = '.'

/-- Does `(allOf|anyOf|oneOf)[<digits>].examples(?:\[|$|\.)` start here? -/
def qualExamplesAt (cs : List Char) : Bool :=
  let afterKw :=
    match consumeLit "allOf".toList cs with
    | some r => some r
    | none =>
      match consumeLit "anyOf".toList cs with
      | some r => some r
      | none => consumeLit "oneOf".toList cs
  match afterKw with
  | none => false
  | some r =>
    match r with
    | '[' :: r2 =>
      let ds := r2.takeWhile Char.isDigit
      let r3 := r2.dropWhile Char.isDigit
      if ds.isEmpty then false
      else
        match r3 with
        | ']' :: '.' :: r4 => examplesTail r4
        | _ => false
    | _ => false

/-- Unanchored scan for the qualified alternative of the first regex. -/
def qualExamplesScan : List Char → Bool
  | [] => false
  | c :: rest => qualExamplesAt (c :: rest) || qualExamplesScan rest

/-- The source's examples-region test on a reference source path:
`/(?:^|(?:allOf|anyOf|oneOf)\[\d+\]\.)examples(?:\[|$|\.)/.test(p) ||
/^examples(?:\[|$|\.)/.test(p)`. -/
def isInExamples (sp : String) : Bool :=
  (examplesTail sp.toList || qualExamplesScan sp.toList) || examplesTail sp.toList

/-- `sourcePath.replace(/\./g, '/')`. -/
def dotSlash (cs : List Char) : List Char :=
  cs.map (fun c => if c = '.' then '/' else c)

/-- `.replace(/\[(\d+)\]/g, '/$1')`: rewrite every `[<digits>]` to
`/<digits>`, scanning left to right (fuelled for termination; the fuel
is always at least the remaining length). -/
def brackAux : Nat → List Char → List Char
  | 0, cs => cs
  | _ + 1, [] => []
  | fuel + 1, '[' :: r =>
    let ds := r.takeWhile Char.isDigit
    let r2 := r.dropWhile Char.isDigit
    if ds.isEmpty then '[' :: brackAux fuel r
    else
      match r2 with
      | ']' :: r3 => '/' :: (ds ++ brackAux fuel r3)
      | _ => '[' :: brackAux fuel r
  | fuel + 1, c :: r => c :: brackAux fuel r

/-- Convert a dot/bracket reference source path into the slash-delimited
`instancePath` of the integrity error: the literal path `root` maps to
`/`, otherwise dots become slashes, `[i]` becomes `/i`, and a leading
slash is prepended. -/
def convertSourcePath (sp : String) : String :=
  if sp = "root" then "/"
  else
    let cs := dotSlash sp.toList
    String.mk ('/' :: brackAux cs.length cs)

/-- Does `.gts-viewer` followed by a path separator start here? -/
def gtsViewerAt (cs : List Char) : Bool :=
  match consumeLit ".gts-viewer".toList cs with
  | some (c :: _) => c = '/' || c = '\\'
  | _ => false

/-- Unanchored scan for a separator-preceded `.gts-viewer` directory. -/
def gtsViewerScan : List Char → Bool
  | [] => false
  | c :: rest => ((c = '/' || c = '\\') && gtsViewerAt rest) || gtsViewerScan rest

/-- The ingestion skip test `/(^|[\\\/])\.gts-viewer[\\\/]/.test(path)`. -/
def isSkippedPath (p : String) : Bool :=
  gtsViewerAt p.toList || gtsViewerScan p.toList

/-! ## Registry operations: reset, invalidation, ingestion -/

/-- `reset()`: clears the entity maps, the file maps, the fetch cache,
the per-path ownership maps and the default-file pointer (the source
does not touch `absentGtsEntities`). -/
def reset (s : RegState) : RegState :=
  { s with jsonObjs := [], jsonSchemas := [], jsonFiles := [], invalidFiles := []
           fetchCache := [], jsonFileObjs := [], jsonFileSchemas := []
           defaultFilePath := none }

/-- Delete a list of entity ids from an entity map (the loop bodies of
`invalidateFile`). -/
def delAll (m : JsMap JsonEntity) : List String → JsMap JsonEntity
  | [] => m
  | k :: rest => delAll (mdel m k) rest

/-- `invalidateFile(path)`: drop the file record and its invalid record,
delete every entity id attributed to the path from the main indices, and
reset the per-path ownership lists to empty. -/
def invalidateFile (s : RegState) (path : String) : RegState :=
  let s1 := if mhas s.jsonFiles path then { s with jsonFiles := mdel s.jsonFiles path } else s
  let s2 := if mhas s1.invalidFiles path then { s1 with invalidFiles := mdel s1.invalidFiles path } else s1
  let s3 :=
    if mhas s2.jsonFileObjs path then
      { s2 with jsonObjs := delAll s2.jsonObjs ((mget s2.jsonFileObjs path).getD [])
                jsonFileObjs := mset (mdel s2.jsonFileObjs path) path [] }
    else s2
  if mhas s3.jsonFileSchemas path then
    { s3 with jsonSchemas := delAll s3.jsonSchemas ((mget s3.jsonFileSchemas path).getD [])
              jsonFileSchemas := mset (mdel s3.jsonFileSchemas path) path [] }
  else s3

/-- `normalizeToArray` plus the per-element `listSequence` recorded by
`processFileContent`: an array document is processed element by element
with its position, a bare document as a single element without one. -/
def elementsOf : JsonContent → List (Option Nat × JsonContent)
  | JsonContent.arr l => l.enum.map (fun p => (some p.1, p.2))
  | c => [(none, c)]

/-- Register one recognized entity into the kind-appropriate main index
and the per-path ownership list. -/
def registerEntity (s : RegState) (path : String) (e : JsonEntity) : RegState :=
  match e.kind with
  | EntityKind.schema =>
    { s with jsonSchemas := mset s.jsonSchemas e.id e
             jsonFileSchemas := mset s.jsonFileSchemas path (((mget s.jsonFileSchemas path).getD []) ++ [e.id]) }
  | EntityKind.obj =>
    { s with jsonObjs := mset s.jsonObjs e.id e
             jsonFileObjs := mset s.jsonFileObjs path (((mget s.jsonFileObjs path).getD []) ++ [e.id]) }

/-- The element loop of `processFileContent`: extract each element,
register recognized GTS entities, and remember whether any was found. -/
def ingestLoop (ctx : Ctx) (jf : JsonFile) (path : String) :
    List (Option Nat × JsonContent) → RegState → Bool → RegState × Bool
  | [], s, hg => (s, hg)
  | pr :: rest, s, hg =>
    match ctx.createEntity jf pr.1 pr.2 with
    | some e =>
      if e.isGts then ingestLoop ctx jf path rest (registerEntity s path e) true
      else ingestLoop ctx jf path rest s hg
    | none => ingestLoop ctx jf path rest s hg

/-- `processFileContent(path, name, content, cfg)`: invalidate any prior
registration, file a parse-failed document as invalid, otherwise extract
and register entities element by element and record the `JsonFile` once
if at least one recognized entity was found. -/
def processFileContent (ctx : Ctx) (s : RegState) (path name : String) (content : JsonContent) : RegState :=
  let s0 := invalidateFile s path
  let jf := mkJsonFile ctx path name content
  if jf.parseErrors.isEmpty then
    let res := ingestLoop ctx jf path (elementsOf content) s0 false
    if res.2 && !(mhas res.1.jsonFiles path) then
      { res.1 with jsonFiles := mset res.1.jsonFiles path jf }
    else res.1
  else
    { s0 with invalidFiles := mset s0.invalidFiles path jf }

/-! ## Reference resolution and validation -/

/-- `resolveSchema(schemaId)`: normalize the identifier (strip the
vendor prefix) and look it up in the schema index only. -/
def resolveSchema (schemas : JsMap JsonEntity) (schemaId : String) : Option JsonEntity :=
  mget schemas (normalizeGtsId schemaId)

/-- The Ajv `loadSchema` callback the registry installs: decode the URI,
accept well-known JSON-Schema meta-URIs unconditionally, otherwise
resolve against the schema index or fail with the missing id. -/
def loaderOf (ctx : Ctx) (schemas : JsMap JsonEntity) (uri : String) : LoaderResult :=
  let sid := ctx.decodeGtsId uri
  if sid.startsWith "https://json-schema.org" || sid.startsWith "http://json-schema.org" then
    LoaderResult.metaSchema
  else
    match resolveSchema schemas sid with
    | none => LoaderResult.notFound sid
    | some sch => LoaderResult.found sch.content

/-- The reference-integrity error appended for one unresolved reference. -/
def gtsRefError (r : GtsRef) : ValidationError :=
  { instancePath := convertSourcePath r.sourcePath
    schemaPath := "#"
    keyword := ""
    message := "GTS reference not found: " ++ r.id
    params := [("gtsId", r.id), ("sourcePath", r.sourcePath)] }

/-- Phase A of `validateEntity`: walk the entity's references in order;
skip examples-region paths; for each reference whose id is in neither
main index, record an absent-entity placeholder and append one integrity
error.  Returns the errors and the updated placeholder map. -/
def phaseA (sc ob : JsMap JsonEntity) (ab : JsMap JsonEntity) :
    List GtsRef → List ValidationError × JsMap JsonEntity
  | [] => ([], ab)
  | r :: rest =>
    if isInExamples r.sourcePath then phaseA sc ob ab rest
    else if mhas sc r.id || mhas ob r.id then phaseA sc ob ab rest
    else
      let res := phaseA sc ob (mset ab r.id (createAbsentEntity r.id)) rest
      (gtsRefError r :: res.1, res.2)

/-- The "Schema not found" error for an object whose declared schema id
does not resolve, pointing at the field that supplied the id. -/
def schemaNotFoundError (e : JsonEntity) (sid : String) : ValidationError :=
  let idField :=
    match e.selectedSchemaIdField with
    | some f => f
    | none =>
      match e.selectedEntityIdField with
      | some f => f
      | none => "id"
  { instancePath := "/" ++ idField
    schemaPath := "#"
    keyword := "schema"
    message := "Schema not found: " ++ sid
    params := [("schemaId", sid)] }

/-- Phase B of `validateEntity`: skipped entirely under the restricted
(VS Code webview) environment; meta-validate a schema through the Ajv
adapter; validate an object against its resolved schema, or report a
missing schema, or do nothing when no `schemaId` is declared. -/
def phaseBTail (ctx : Ctx) (sc : JsMap JsonEntity) (e : JsonEntity) : List ValidationError :=
  if ctx.vscodeEnv then []
  else
    match e.kind with
    | EntityKind.schema => ctx.ajvCompileSchema (loaderOf ctx sc) e.content
    | EntityKind.obj =>
      match e.schemaId with
      | none => []
      | some sid =>
        match resolveSchema sc sid with
        | none => [schemaNotFoundError e sid]
        | some sch => ctx.ajvValidateObj (loaderOf ctx sc) sch.content e.content

/-- `validateEntity(entity)`: reset the validation result, run Phase A
over the references, then Phase B; return the entity with its new
validation result and the updated absent-entity map. -/
def validateEntity (ctx : Ctx) (sc ob ab : JsMap JsonEntity) (e : JsonEntity) :
    JsonEntity × JsMap JsonEntity :=
  let pa := phaseA sc ob ab e.gtsRefs
  ({ e with validation := some (pa.1 ++ phaseBTail ctx sc e) }, pa.2)

/-- Accumulator of a validation pass: the evolving entity maps, the
absent-entity map, and the order in which entities were validated. -/
structure PassAcc where
  schemas : JsMap JsonEntity
  objs : JsMap JsonEntity
  absent : JsMap JsonEntity
  trace : List (String × EntityKind)

/-- The schema loop of `validateEntities`. -/
def schemaPass (ctx : Ctx) : List (String × JsonEntity) → PassAcc → PassAcc
  | [], a => a
  | ke :: rest, a =>
    let r := validateEntity ctx a.schemas a.objs a.absent ke.2
    schemaPass ctx rest
      { schemas := mset a.schemas ke.1 r.1, objs := a.objs, absent := r.2
        trace := a.trace ++ [(ke.1, EntityKind.schema)] }

/-- The object loop of `validateEntities`. -/
def objPass (ctx : Ctx) : List (String × JsonEntity) → PassAcc → PassAcc
  | [], a => a
  | ke :: rest, a =>
    let r := validateEntity ctx a.schemas a.objs a.absent ke.2
    objPass ctx rest
      { schemas := a.schemas, objs := mset a.objs ke.1 r.1, absent := r.2
        trace := a.trace ++ [(ke.1, EntityKind.obj)] }

/-- `validateEntities()`: validate every schema first, then every
object, threading the registry state; also return the validation order. -/
def validateEntities (ctx : Ctx) (s : RegState) : RegState × List (String × EntityKind) :=
  let a0 : PassAcc :=
    { schemas := s.jsonSchemas, objs := s.jsonObjs
      absent := s.absentGtsEntities, trace := [] }
  let a1 := schemaPass ctx s.jsonSchemas a0
  let a2 := objPass ctx a1.objs a1
  ({ s with jsonSchemas := a2.schemas, jsonObjs := a2.objs, absentGtsEntities := a2.absent },
   a2.trace)

/-! ## Public surface -/

/-- An in-memory file handed to `ingestFiles`. -/
structure IngFile where
  path : String
  name : String
  content : JsonContent

/-- `ingestFiles(files, cfg)`: process each file in input order (skipping
`.gts-viewer` metadata paths), then run the full validation pass. -/
def ingestFiles (ctx : Ctx) (files : List IngFile) (s : RegState) : RegState :=
  let s1 := files.foldl
    (fun st f => if isSkippedPath f.path then st else processFileContent ctx st f.path f.name f.content) s
  (validateEntities ctx s1).1

/-- `setDefaultFile(pathOrNull)`: a truthy path is stored; otherwise fall
back to the first tracked file's path (or null).  JavaScript treats the
empty string as falsy. -/
def setDefaultFile (s : RegState) (pathOrNull : Option String) : RegState :=
  match pathOrNull with
  | some p =>
    if p = "" then
      { s with defaultFilePath :=
          match s.jsonFiles.head? with
          | some kv => if kv.2.path = "" then none else some kv.2.path
          | none => none }
    else { s with defaultFilePath := some p }
  | none =>
    { s with defaultFilePath :=
        match s.jsonFiles.head? with
        | some kv => if kv.2.path = "" then none else some kv.2.path
        | none => none }

/-- `getDefaultFilePath()` (`this.defaultFilePath || null`). -/
def getDefaultFilePath (s : RegState) : Option String :=
  match s.defaultFilePath with
  | some p => if p = "" then none else some p
  | none => none

/-- `getDefaultFile()`: the tracked file at the default path, if any. -/
def getDefaultFile (s : RegState) : Option JsonFile :=
  match s.defaultFilePath with
  | some p => if p = "" then none else mget s.jsonFiles p
  | none => none

/-- `isGtsCandidateFileName`: the fixed extension allow-list. -/
def isGtsCandidateFileName (fileName : String) : Bool :=
  fileName.endsWith ".json" || fileName.endsWith ".jsonc" || fileName.endsWith ".gts" ||
    fileName.endsWith ".yaml" || fileName.endsWith ".yml"

/-! ## Map lemmas -/

/-- Insert absent-entity placeholders for a list of ids, in order. -/
def insAbsents (ab : JsMap JsonEntity) : List String → JsMap JsonEntity
  | [] => ab
  | k :: rest => insAbsents (mset ab k (createAbsentEntity k)) rest

/-- The references of a list that Phase A reports: source path outside
the examples region and id in neither main index (raw id lookup). -/
def unresolved (sc ob : JsMap JsonEntity) (refs : List GtsRef) : List GtsRef :=
  refs.filter (fun r => !(isInExamples r.sourcePath) && !(mhas sc r.id || mhas ob r.id))

/-- Erase the mutable validation result of an entity. -/
def stripV (e : JsonEntity) : JsonEntity := { e with validation := none }

/-- The validation-insensitive view of an entity map. -/
def sview (m : JsMap JsonEntity) (k : String) : Option JsonEntity :=
  (mget m k).map stripV

/-- The ids Phase A inserts as placeholders while validating an entity. -/
def absIds (sc ob : JsMap JsonEntity) (e : JsonEntity) : List String :=
  (unresolved sc ob e.gtsRefs).map GtsRef.id

/-- The entity produced by `validateEntity`, as a function of the index
maps. -/
def vfun (ctx : Ctx) (sc ob : JsMap JsonEntity) (e : JsonEntity) : JsonEntity :=
  { e with validation := some ((unresolved sc ob e.gtsRefs).map gtsRefError ++ phaseBTail ctx sc e) }

/-- Does validating some entity of the entry list insert `q` as an
absent-entity placeholder? -/
def hitAbs (sc ob : JsMap JsonEntity) (es : List (String × JsonEntity)) (q : String) : Bool :=
  es.any (fun ke => decide (q ∈ absIds sc ob ke.2))

/-- The state after one full validation pass. -/
def vE (ctx : Ctx) (s : RegState) : RegState := (validateEntities ctx s).1

/-- Does the full validation pass insert `q` as an absent placeholder? -/
def hitState (s : RegState) (q : String) : Bool :=
  hitAbs s.jsonSchemas s.jsonObjs (s.jsonSchemas ++ s.jsonObjs) q

/-- Registry well-formedness: the entity maps and the placeholder map
hold no duplicate keys (always true of real JavaScript `Map`s). -/
def WF (s : RegState) : Prop :=
  ndk s.jsonSchemas ∧ ndk s.jsonObjs ∧ ndk s.absentGtsEntities

/-- The entity ids currently attributed to a path as objects. -/
def ownedO (s : RegState) (p : String) : List String :=
  (mget s.jsonFileObjs p).getD []

/-- The entity ids currently attributed to a path as schemas. -/
def ownedS (s : RegState) (p : String) : List String :=
  (mget s.jsonFileSchemas p).getD []

/-- The recognized GTS entities extracted from the elements, in order. -/
def recEnts (ctx : Ctx) (jf : JsonFile) : List (Option Nat × JsonContent) → List JsonEntity
  | [] => []
  | pr :: rest =>
    match ctx.createEntity jf pr.1 pr.2 with
    | some e => if e.isGts then e :: recEnts ctx jf rest else recEnts ctx jf rest
    | none => recEnts ctx jf rest

/-- The entities of one kind, in order. -/
def entsOfKind (kd : EntityKind) (l : List JsonEntity) : List JsonEntity :=
  l.filter (fun e => decide (e.kind = kd))

/-- The ids of the entities of one kind, in order. -/
def idsOfKind (kd : EntityKind) (l : List JsonEntity) : List String :=
  (entsOfKind kd l).map JsonEntity.id

/-- The last entity of the list carrying the given id (the survivor of
successive `Map.set` registrations). -/
def lastWith (k : String) : List JsonEntity → Option JsonEntity
  | [] => none
  | e :: rest =>
    match lastWith k rest with
    | some x => some x
    | none => if e.id = k then some e else none

/-- Did the file content pass the parse-level check? -/
def parseOkB (ctx : Ctx) (p nm : String) (c : JsonContent) : Bool :=
  (mkJsonFile ctx p nm c).parseErrors.isEmpty

/-- The recognized entities a file produces. -/
def newEnts (ctx : Ctx) (p nm : String) (c : JsonContent) : List JsonEntity :=
  recEnts ctx (mkJsonFile ctx p nm c) (elementsOf c)

/-- The object-entity ids a file produces, in registration order. -/
def newObjIds (ctx : Ctx) (p nm : String) (c : JsonContent) : List String :=
  idsOfKind EntityKind.obj (newEnts ctx p nm c)

/-- The schema-entity ids a file produces, in registration order. -/
def newSchIds (ctx : Ctx) (p nm : String) (c : JsonContent) : List String :=
  idsOfKind EntityKind.schema (newEnts ctx p nm c)

/-- Observational equality of two registry states: the same key-to-value
maps everywhere and the same default-file pointer (entry order of the
maps may differ). -/
def Req (s1 s2 : RegState) : Prop :=
  (∀ k, mget s1.jsonObjs k = mget s2.jsonObjs k) ∧
  (∀ k, mget s1.jsonSchemas k = mget s2.jsonSchemas k) ∧
  (∀ k, mget s1.jsonFiles k = mget s2.jsonFiles k) ∧
  (∀ k, mget s1.invalidFiles k = mget s2.invalidFiles k) ∧
  (∀ k, mget s1.jsonFileObjs k = mget s2.jsonFileObjs k) ∧
  (∀ k, mget s1.jsonFileSchemas k = mget s2.jsonFileSchemas k) ∧
  (∀ k, mget s1.absentGtsEntities k = mget s2.absentGtsEntities k) ∧
  s1.fetchCache = s2.fetchCache ∧ s1.defaultFilePath = s2.defaultFilePath

/-- A concrete collaborator context: no parse errors, every non-empty
atom is extracted as a GTS object entity named by its tag, no Ajv phase
(restricted environment). -/
def ctxT : Ctx :=
  { fileErrors := fun _ _ _ => []
    createEntity := fun _ _ c =>
      match c with
      | JsonContent.atom t =>
        if t = "" then none
        else some { id := t, kind := EntityKind.obj, isGts := true, schemaId := none
                    selectedSchemaIdField := none, selectedEntityIdField := none
                    gtsRefs := [], content := c, validation := none }
      | _ => none
    decodeGtsId := fun s => s
    vscodeEnv := true
    ajvCompileSchema := fun _ _ => []
    ajvValidateObj := fun _ _ _ => [] }

/-- Two files at different paths that declare the same entity id `X`. -/
def cexRegAB : RegState :=
  processFileContent ctxT
    (processFileContent ctxT emptyRegistry "A" "A" (JsonContent.atom "X"))
    "B" "B" (JsonContent.atom "X")

/-- A registry holding object entities `Z` (from path `q`) and `W` (from
path `r`). -/
def cexBase : RegState :=
  ingestFiles ctxT
    [{ path := "q", name := "q", content := JsonContent.atom "Z" },
     { path := "r", name := "r", content := JsonContent.atom "W" }] emptyRegistry

/-- A file at path `p` that declares the already-taken id `Z`. -/
def fpX : IngFile := { path := "p", name := "p", content := JsonContent.atom "Z" }

/-- A registry with one schema `S` and one object `O`. -/
def stW : RegState :=
  { emptyRegistry with
      jsonSchemas := [("S",
        { id := "S", kind := EntityKind.schema, isGts := true, schemaId := none
          selectedSchemaIdField := none, selectedEntityIdField := none
          gtsRefs := [], content := JsonContent.atom "S", validation := none })]
      jsonObjs := [("O",
        { id := "O", kind := EntityKind.obj, isGts := true, schemaId := some "S"
          selectedSchemaIdField := none, selectedEntityIdField := none
          gtsRefs := [], content := JsonContent.atom "O", validation := none })] }

/-- An object entity with three unresolved references: two inside
examples regions, one under a `properties` field. -/
def cex5E : JsonEntity :=
  { id := "E", kind := EntityKind.obj, isGts := true, schemaId := none
    selectedSchemaIdField := none, selectedEntityIdField := none
    gtsRefs := [{ id := "missing1", sourcePath := "examples[0].gtsIid" },
                { id := "missing2", sourcePath := "allOf[0].examples" },
                { id := "missing3", sourcePath := "properties.examples.gtsIid" }]
    content := JsonContent.atom "E", validation := none }

/-- A registry whose absent-entity map is non-empty. -/
def cexAbsent : RegState :=
  { emptyRegistry with absentGtsEntities := [("Z", createAbsentEntity "Z")] }

/-! ## Lemmas and claim theorems -/

theorem mget_mset {α : Type} (m : JsMap α) (k : String) (v : α) (q : String) :
    mget (mset m k v) q = if q = k then some v else mget m q := by
  induction m with
  | nil =>
    by_cases h : q = k
    · simp [mset, mget, h]
    · have hk : ¬ k = q := fun e => h e.symm
      simp [mset, mget, h, hk]
  | cons kv rest ih =>
    by_cases h1 : kv.1 = k
    · simp only [mset, if_pos h1, mget]
      by_cases h : q = k
      · simp [h]
      · have hk : ¬ k = q := fun e => h e.symm
        simp [h, hk, mget, h1]
    · simp only [mset, if_neg h1, mget, ih]
      by_cases h2 : kv.1 = q
      · have hq : ¬ q = k := fun e => h1 (e ▸ h2)
        simp [h2, hq]
      · simp [h2]

theorem mget_mdel {α : Type} (m : JsMap α) (k : String) (q : String) :
    mget (mdel m k) q = if q = k then none else mget m q := by
  induction m with
  | nil => simp [mdel, mget]
  | cons kv rest ih =>
    by_cases h1 : kv.1 = k
    · simp only [mdel, if_pos h1, ih]
      by_cases h : q = k
      · simp [h]
      · have hk : ¬ kv.1 = q := fun e => h ((h1 ▸ e : k = q).symm)
        simp [h, mget, hk]
    · simp only [mdel, if_neg h1, mget, ih]
      by_cases h2 : kv.1 = q
      · have hq : ¬ q = k := fun e => h1 (e ▸ h2)
        simp [h2, hq]
      · simp [h2]

theorem mhas_eq_isSome {α : Type} (m : JsMap α) (k : String) :
    mhas m k = (mget m k).isSome := by
  induction m with
  | nil => simp [mhas, mget]
  | cons kv rest ih =>
    simp only [mhas, mget]
    by_cases h : kv.1 = k <;> simp [h, ih]

theorem mget_eq_none_of_mhas_false {α : Type} {m : JsMap α} {k : String}
    (h : mhas m k = false) : mget m k = none := by
  rw [mhas_eq_isSome] at h
  exact Option.not_isSome_iff_eq_none.mp (by simp [h])

theorem mget_some_mem {α : Type} {m : JsMap α} {k : String} {v : α}
    (h : mget m k = some v) : (k, v) ∈ m := by
  induction m with
  | nil => simp [mget] at h
  | cons kv rest ih =>
    simp only [mget] at h
    by_cases h1 : kv.1 = k
    · simp only [if_pos h1, Option.some.injEq] at h
      rw [List.mem_cons]
      left
      cases kv
      simp_all
    · simp only [if_neg h1] at h
      exact List.mem_cons_of_mem _ (ih h)

theorem mem_mhas {α : Type} {m : JsMap α} {kv : String × α}
    (h : kv ∈ m) : mhas m kv.1 = true := by
  induction m with
  | nil => simp at h
  | cons kv2 rest ih =>
    rcases List.mem_cons.mp h with h | h
    · simp [mhas, h]
    · simp only [mhas]
      by_cases h2 : kv2.1 = kv.1 <;> simp [h2, ih h]

theorem ndk_cons_iff {α : Type} {kv : String × α} {m : JsMap α} :
    ndk (kv :: m) ↔ kv.1 ∉ keysOf m ∧ ndk m := by
  simp only [ndk, keysOf, List.map_cons, List.nodup_cons]

theorem mem_ndk_mget {α : Type} {m : JsMap α} {kv : String × α}
    (hnd : ndk m) (h : kv ∈ m) : mget m kv.1 = some kv.2 := by
  induction m with
  | nil => simp at h
  | cons kv2 rest ih =>
    rcases ndk_cons_iff.mp hnd with ⟨h1, h2⟩
    rcases List.mem_cons.mp h with h | h
    · simp [mget, h]
    · have hne : kv2.1 ≠ kv.1 := by
        intro he
        exact h1 (he ▸ (by simpa [keysOf] using List.mem_map_of_mem Prod.fst h))
      simp [mget, hne, ih h2 h]

theorem mget_eq_none_of_not_mem_keys {α : Type} {m : JsMap α} {k : String}
    (h : k ∉ keysOf m) : mget m k = none := by
  induction m with
  | nil => simp [mget]
  | cons kv rest ih =>
    simp only [keysOf, List.map_cons, List.mem_cons, not_or] at h
    simp only [mget, if_neg (fun he : kv.1 = k => h.1 he.symm)]
    exact ih (by simpa [keysOf] using h.2)

theorem keysOf_mset_of_mhas {α : Type} {m : JsMap α} {k : String} (v : α)
    (h : mhas m k = true) : keysOf (mset m k v) = keysOf m := by
  induction m with
  | nil => simp [mhas] at h
  | cons kv rest ih =>
    by_cases h1 : kv.1 = k
    · simp [mset, h1, keysOf]
    · simp only [mhas, if_neg h1] at h
      simp only [mset, if_neg h1, keysOf, List.map_cons, List.cons.injEq, true_and]
      exact ih h

theorem mhas_mset {α : Type} (m : JsMap α) (k : String) (v : α) (q : String) :
    mhas (mset m k v) q = (if q = k then true else mhas m q) := by
  rw [mhas_eq_isSome, mget_mset]
  by_cases h : q = k <;> simp [h, mhas_eq_isSome]

theorem ndk_nil {α : Type} : ndk ([] : JsMap α) := by simp [ndk, keysOf]

theorem mem_keys_of_mhas {α : Type} {m : JsMap α} {k : String}
    (h : mhas m k = true) : k ∈ keysOf m := by
  rw [mhas_eq_isSome] at h
  rcases Option.isSome_iff_exists.mp h with ⟨v, hv⟩
  simpa [keysOf] using List.mem_map_of_mem Prod.fst (mget_some_mem hv)

theorem ndk_mset {α : Type} {m : JsMap α} (k : String) (v : α)
    (h : ndk m) : ndk (mset m k v) := by
  induction m with
  | nil => simp [mset, ndk, keysOf]
  | cons kv rest ih =>
    rcases ndk_cons_iff.mp h with ⟨h1, h2⟩
    by_cases hk : kv.1 = k
    · simp only [mset, if_pos hk]
      exact ndk_cons_iff.mpr ⟨by rw [← hk]; exact h1, h2⟩
    · simp only [mset, if_neg hk]
      refine ndk_cons_iff.mpr ⟨?_, ih h2⟩
      intro hmem
      rw [keysOf] at hmem
      rcases List.mem_map.mp hmem with ⟨kv2, hkv2, hfst⟩
      have hh := mem_mhas hkv2
      rw [mhas_mset] at hh
      by_cases h3 : kv2.1 = k
      · exact hk (hfst ▸ h3)
      · simp only [if_neg h3] at hh
        exact h1 (hfst ▸ mem_keys_of_mhas hh)

theorem ndk_mdel {α : Type} {m : JsMap α} (k : String)
    (h : ndk m) : ndk (mdel m k) := by
  induction m with
  | nil => simpa [mdel] using h
  | cons kv rest ih =>
    rcases ndk_cons_iff.mp h with ⟨h1, h2⟩
    by_cases hk : kv.1 = k
    · simp only [mdel, if_pos hk]
      exact ih h2
    · simp only [mdel, if_neg hk]
      refine ndk_cons_iff.mpr ⟨?_, ih h2⟩
      intro hmem
      rw [keysOf] at hmem
      rcases List.mem_map.mp hmem with ⟨kv2, hkv2, hfst⟩
      have hv : mhas (mdel rest k) kv2.1 = true := mem_mhas hkv2
      rw [mhas_eq_isSome, mget_mdel] at hv
      by_cases h3 : kv2.1 = k
      · simp [h3] at hv
      · simp only [if_neg h3] at hv
        exact h1 (hfst ▸ mem_keys_of_mhas (by rw [mhas_eq_isSome]; exact hv))

/-! ## Phase A specification -/

theorem mget_insAbsents (ab : JsMap JsonEntity) (ids : List String) (k : String) :
    mget (insAbsents ab ids) k =
      if k ∈ ids then some (createAbsentEntity k) else mget ab k := by
  induction ids generalizing ab with
  | nil => simp [insAbsents]
  | cons i rest ih =>
    simp only [insAbsents, ih, mget_mset, List.mem_cons]
    by_cases h1 : k ∈ rest
    · simp [h1]
    · by_cases h2 : k = i
      · simp [h1, h2]
      · simp [h1, h2]

theorem ndk_insAbsents {ab : JsMap JsonEntity} (ids : List String)
    (h : ndk ab) : ndk (insAbsents ab ids) := by
  induction ids generalizing ab with
  | nil => simpa [insAbsents] using h
  | cons i rest ih => exact ih (ndk_mset _ _ h)

theorem unresolved_cons_skip {sc ob : JsMap JsonEntity} {r : GtsRef} {rest : List GtsRef}
    (h : isInExamples r.sourcePath = true) :
    unresolved sc ob (r :: rest) = unresolved sc ob rest := by
  simp [unresolved, List.filter_cons, h]

theorem unresolved_cons_found {sc ob : JsMap JsonEntity} {r : GtsRef} {rest : List GtsRef}
    (h : (mhas sc r.id || mhas ob r.id) = true) :
    unresolved sc ob (r :: rest) = unresolved sc ob rest := by
  rcases Bool.or_eq_true_iff.mp h with h2 | h2 <;> simp [unresolved, List.filter_cons, h2]

theorem unresolved_cons_miss {sc ob : JsMap JsonEntity} {r : GtsRef} {rest : List GtsRef}
    (h1 : isInExamples r.sourcePath = false) (h2 : (mhas sc r.id || mhas ob r.id) = false) :
    unresolved sc ob (r :: rest) = r :: unresolved sc ob rest := by
  rcases Bool.or_eq_false_iff.mp h2 with ⟨h3, h4⟩
  simp [unresolved, List.filter_cons, h1, h3, h4]

theorem phaseA_spec (sc ob ab : JsMap JsonEntity) (refs : List GtsRef) :
    phaseA sc ob ab refs =
      ((unresolved sc ob refs).map gtsRefError,
       insAbsents ab ((unresolved sc ob refs).map GtsRef.id)) := by
  induction refs generalizing ab with
  | nil => simp [phaseA, unresolved, insAbsents]
  | cons r rest ih =>
    by_cases h1 : isInExamples r.sourcePath = true
    · rw [show phaseA sc ob ab (r :: rest) = phaseA sc ob ab rest from by simp [phaseA, h1],
        unresolved_cons_skip h1]
      exact ih ab
    · have h1f : isInExamples r.sourcePath = false := by simpa using h1
      by_cases h2 : (mhas sc r.id || mhas ob r.id) = true
      · rw [show phaseA sc ob ab (r :: rest) = phaseA sc ob ab rest from by
            simp [phaseA, h1f, h2], unresolved_cons_found h2]
        exact ih ab
      · have h2f : (mhas sc r.id || mhas ob r.id) = false := by simpa using h2
        have hstep : phaseA sc ob ab (r :: rest) =
            (gtsRefError r :: (phaseA sc ob (mset ab r.id (createAbsentEntity r.id)) rest).1,
             (phaseA sc ob (mset ab r.id (createAbsentEntity r.id)) rest).2) := by
          simp [phaseA, h1f, h2f]
        rw [hstep, unresolved_cons_miss h1f h2f, ih]
        simp [insAbsents]

/-! ## Validation as a function of the entity and the index views -/

theorem validateEntity_eq (ctx : Ctx) (sc ob ab : JsMap JsonEntity) (e : JsonEntity) :
    validateEntity ctx sc ob ab e = (vfun ctx sc ob e, insAbsents ab (absIds sc ob e)) := by
  simp [validateEntity, phaseA_spec, vfun, absIds]

theorem stripV_vfun (ctx : Ctx) (sc ob : JsMap JsonEntity) (e : JsonEntity) :
    stripV (vfun ctx sc ob e) = stripV e := rfl

/-! ## Congruence: validation depends only on the index views -/

theorem stripV_inj_fields {e1 e2 : JsonEntity} (h : stripV e1 = stripV e2) :
    e1.id = e2.id ∧ e1.kind = e2.kind ∧ e1.isGts = e2.isGts ∧
    e1.schemaId = e2.schemaId ∧ e1.selectedSchemaIdField = e2.selectedSchemaIdField ∧
    e1.selectedEntityIdField = e2.selectedEntityIdField ∧
    e1.gtsRefs = e2.gtsRefs ∧ e1.content = e2.content := by
  cases e1
  cases e2
  simpa [stripV, JsonEntity.mk.injEq] using h

theorem setValidation_congr {e1 e2 : JsonEntity} (h : stripV e1 = stripV e2)
    (v : Option (List ValidationError)) :
    ({ e1 with validation := v } : JsonEntity) = { e2 with validation := v } := by
  cases e1
  cases e2
  simp only [stripV, JsonEntity.mk.injEq] at h
  simp_all

theorem mhas_congr_sview {m1 m2 : JsMap JsonEntity}
    (h : ∀ k, sview m1 k = sview m2 k) (k : String) : mhas m1 k = mhas m2 k := by
  rw [mhas_eq_isSome, mhas_eq_isSome]
  have := h k
  simp only [sview] at this
  cases h1 : mget m1 k <;> cases h2 : mget m2 k <;> simp_all

theorem unresolved_congr {sc1 sc2 ob1 ob2 : JsMap JsonEntity}
    (hsc : ∀ k, sview sc1 k = sview sc2 k) (hob : ∀ k, sview ob1 k = sview ob2 k)
    (refs : List GtsRef) : unresolved sc1 ob1 refs = unresolved sc2 ob2 refs := by
  simp only [unresolved]
  apply List.filter_congr
  intro r _
  rw [mhas_congr_sview hsc, mhas_congr_sview hob]

theorem resolveSchema_congr {sc1 sc2 : JsMap JsonEntity}
    (hsc : ∀ k, sview sc1 k = sview sc2 k) (sid : String) :
    (resolveSchema sc1 sid).map stripV = (resolveSchema sc2 sid).map stripV := by
  simpa [resolveSchema, sview] using hsc (normalizeGtsId sid)

theorem loaderOf_congr (ctx : Ctx) {sc1 sc2 : JsMap JsonEntity}
    (hsc : ∀ k, sview sc1 k = sview sc2 k) :
    loaderOf ctx sc1 = loaderOf ctx sc2 := by
  funext uri
  simp only [loaderOf]
  split
  · rfl
  · have h := resolveSchema_congr hsc (ctx.decodeGtsId uri)
    cases h1 : resolveSchema sc1 (ctx.decodeGtsId uri) <;>
      cases h2 : resolveSchema sc2 (ctx.decodeGtsId uri) <;> simp_all
    have : (stripV _).content = (stripV _).content := congrArg JsonEntity.content h
    simpa [stripV] using this

theorem stripV_some_content {a b : JsonEntity} (h : stripV a = stripV b) :
    a.content = b.content := by
  have := congrArg JsonEntity.content h
  simpa [stripV] using this

theorem phaseBTail_congr (ctx : Ctx) {sc1 sc2 : JsMap JsonEntity}
    (hsc : ∀ k, sview sc1 k = sview sc2 k) {e1 e2 : JsonEntity}
    (he : stripV e1 = stripV e2) : phaseBTail ctx sc1 e1 = phaseBTail ctx sc2 e2 := by
  have hload := loaderOf_congr ctx hsc
  cases e1 with
  | mk id1 kind1 g1 sid1 f11 f12 refs1 c1 v1 =>
  cases e2 with
  | mk id2 kind2 g2 sid2 f21 f22 refs2 c2 v2 =>
  simp only [stripV, JsonEntity.mk.injEq] at he
  obtain ⟨h1, h2, h3, h4, h5, h6, h7, h8, -⟩ := he
  subst h1 h2 h3 h4 h5 h6 h7 h8
  by_cases hv : ctx.vscodeEnv = true
  · simp [phaseBTail, hv]
  · cases kind1
    · simp [phaseBTail, if_neg hv, hload]
    · cases sid1 with
      | none => simp [phaseBTail, if_neg hv]
      | some sid =>
        have h := resolveSchema_congr hsc sid
        simp only [phaseBTail, if_neg hv, hload]
        cases hr1 : resolveSchema sc1 sid with
        | none =>
          cases hr2 : resolveSchema sc2 sid with
          | none => simp [schemaNotFoundError]
          | some b => rw [hr1, hr2] at h; simp at h
        | some a =>
          cases hr2 : resolveSchema sc2 sid with
          | none => rw [hr1, hr2] at h; simp at h
          | some b =>
            rw [hr1, hr2] at h
            simp only [Option.map_some'] at h
            have hc := stripV_some_content (Option.some.inj h)
            simp [hc]

theorem vfun_congr (ctx : Ctx) {sc1 sc2 ob1 ob2 : JsMap JsonEntity}
    (hsc : ∀ k, sview sc1 k = sview sc2 k) (hob : ∀ k, sview ob1 k = sview ob2 k)
    {e1 e2 : JsonEntity} (he : stripV e1 = stripV e2) :
    vfun ctx sc1 ob1 e1 = vfun ctx sc2 ob2 e2 := by
  have hval : (unresolved sc1 ob1 e1.gtsRefs).map gtsRefError ++ phaseBTail ctx sc1 e1
      = (unresolved sc2 ob2 e2.gtsRefs).map gtsRefError ++ phaseBTail ctx sc2 e2 := by
    obtain ⟨-, -, -, -, -, -, hrefs, -⟩ := stripV_inj_fields he
    rw [hrefs, unresolved_congr hsc hob, phaseBTail_congr ctx hsc he]
  simp only [vfun, hval]
  exact setValidation_congr he _

theorem absIds_congr {sc1 sc2 ob1 ob2 : JsMap JsonEntity}
    (hsc : ∀ k, sview sc1 k = sview sc2 k) (hob : ∀ k, sview ob1 k = sview ob2 k)
    {e1 e2 : JsonEntity} (he : stripV e1 = stripV e2) :
    absIds sc1 ob1 e1 = absIds sc2 ob2 e2 := by
  obtain ⟨-, -, -, -, -, -, hrefs, -⟩ := stripV_inj_fields he
  simp only [absIds, hrefs, unresolved_congr hsc hob]

/-! ## Validation pass characterizations -/

theorem schemaPass_objs (ctx : Ctx) (es : List (String × JsonEntity)) (a : PassAcc) :
    (schemaPass ctx es a).objs = a.objs := by
  induction es generalizing a with
  | nil => rfl
  | cons ke rest ih => simp only [schemaPass]; rw [ih]

theorem objPass_schemas (ctx : Ctx) (es : List (String × JsonEntity)) (a : PassAcc) :
    (objPass ctx es a).schemas = a.schemas := by
  induction es generalizing a with
  | nil => rfl
  | cons ke rest ih => simp only [objPass]; rw [ih]

theorem schemaPass_trace (ctx : Ctx) (es : List (String × JsonEntity)) (a : PassAcc) :
    (schemaPass ctx es a).trace = a.trace ++ es.map (fun ke => (ke.1, EntityKind.schema)) := by
  induction es generalizing a with
  | nil => simp [schemaPass]
  | cons ke rest ih => simp only [schemaPass]; rw [ih]; simp

theorem objPass_trace (ctx : Ctx) (es : List (String × JsonEntity)) (a : PassAcc) :
    (objPass ctx es a).trace = a.trace ++ es.map (fun ke => (ke.1, EntityKind.obj)) := by
  induction es generalizing a with
  | nil => simp [objPass]
  | cons ke rest ih => simp only [objPass]; rw [ih]; simp

theorem schemaPass_keys (ctx : Ctx) (es : List (String × JsonEntity)) (a : PassAcc) :
    (∀ ke ∈ es, mhas a.schemas ke.1 = true) →
    keysOf (schemaPass ctx es a).schemas = keysOf a.schemas := by
  induction es generalizing a with
  | nil => intro _; rfl
  | cons ke rest ih =>
    intro h
    have hh := h ke (List.mem_cons_self _ _)
    simp only [schemaPass]
    rw [ih _ ?_, keysOf_mset_of_mhas _ hh]
    intro ke2 hke2
    rw [mhas_mset]
    by_cases he : ke2.1 = ke.1
    · simp [he]
    · simpa [he] using h ke2 (List.mem_cons_of_mem _ hke2)

theorem objPass_keys (ctx : Ctx) (es : List (String × JsonEntity)) (a : PassAcc) :
    (∀ ke ∈ es, mhas a.objs ke.1 = true) →
    keysOf (objPass ctx es a).objs = keysOf a.objs := by
  induction es generalizing a with
  | nil => intro _; rfl
  | cons ke rest ih =>
    intro h
    have hh := h ke (List.mem_cons_self _ _)
    simp only [objPass]
    rw [ih _ ?_, keysOf_mset_of_mhas _ hh]
    intro ke2 hke2
    rw [mhas_mset]
    by_cases he : ke2.1 = ke.1
    · simp [he]
    · simpa [he] using h ke2 (List.mem_cons_of_mem _ hke2)

theorem schemaPass_schemas_mget (ctx : Ctx) {m0 ob0 : JsMap JsonEntity}
    (es : List (String × JsonEntity)) (a : PassAcc) (k : String) :
    ndk es →
    (∀ q, sview a.schemas q = sview m0 q) →
    (∀ q, sview a.objs q = sview ob0 q) →
    (∀ ke ∈ es, sview m0 ke.1 = some (stripV ke.2)) →
    mget (schemaPass ctx es a).schemas k =
      match mget es k with
      | some e => some (vfun ctx m0 ob0 e)
      | none => mget a.schemas k := by
  induction es generalizing a with
  | nil => intro _ _ _ _; simp [schemaPass, mget]
  | cons ke rest ih =>
    intro hnd hsc hob hes
    obtain ⟨hk1, hnd2⟩ := ndk_cons_iff.mp hnd
    have hv : (validateEntity ctx a.schemas a.objs a.absent ke.2).1 = vfun ctx m0 ob0 ke.2 := by
      rw [validateEntity_eq]
      exact vfun_congr ctx hsc hob rfl
    have hsc2 : ∀ q, sview (mset a.schemas ke.1 (validateEntity ctx a.schemas a.objs a.absent ke.2).1) q = sview m0 q := by
      intro q
      rw [hv]
      simp only [sview, mget_mset]
      by_cases hq : q = ke.1
      · rw [if_pos hq, hq]
        have := hes ke (List.mem_cons_self _ _)
        simp only [sview] at this
        rw [this]
        simp [stripV_vfun]
      · rw [if_neg hq]
        exact hsc q
    simp only [schemaPass]
    have hIH := ih { schemas := mset a.schemas ke.1 (validateEntity ctx a.schemas a.objs a.absent ke.2).1,
                     objs := a.objs, absent := (validateEntity ctx a.schemas a.objs a.absent ke.2).2,
                     trace := a.trace ++ [(ke.1, EntityKind.schema)] }
      hnd2 hsc2 hob (fun ke2 h2 => hes ke2 (List.mem_cons_of_mem _ h2))
    rw [hIH]
    by_cases hk : ke.1 = k
    · have hrest : mget rest k = none :=
        mget_eq_none_of_not_mem_keys (by rw [← hk]; exact hk1)
      simp only [mget, if_pos hk, hrest, hv, mget_mset, if_pos hk.symm]
    · simp only [mget, if_neg hk, mget_mset, if_neg (fun he : k = ke.1 => hk he.symm)]

theorem objPass_objs_mget (ctx : Ctx) {sc0 ob0 : JsMap JsonEntity}
    (es : List (String × JsonEntity)) (a : PassAcc) (k : String) :
    ndk es →
    (∀ q, sview a.schemas q = sview sc0 q) →
    (∀ q, sview a.objs q = sview ob0 q) →
    (∀ ke ∈ es, sview ob0 ke.1 = some (stripV ke.2)) →
    mget (objPass ctx es a).objs k =
      match mget es k with
      | some e => some (vfun ctx sc0 ob0 e)
      | none => mget a.objs k := by
  induction es generalizing a with
  | nil => intro _ _ _ _; simp [objPass, mget]
  | cons ke rest ih =>
    intro hnd hsc hob hes
    obtain ⟨hk1, hnd2⟩ := ndk_cons_iff.mp hnd
    have hv : (validateEntity ctx a.schemas a.objs a.absent ke.2).1 = vfun ctx sc0 ob0 ke.2 := by
      rw [validateEntity_eq]
      exact vfun_congr ctx hsc hob rfl
    have hob2 : ∀ q, sview (mset a.objs ke.1 (validateEntity ctx a.schemas a.objs a.absent ke.2).1) q = sview ob0 q := by
      intro q
      rw [hv]
      simp only [sview, mget_mset]
      by_cases hq : q = ke.1
      · rw [if_pos hq, hq]
        have := hes ke (List.mem_cons_self _ _)
        simp only [sview] at this
        rw [this]
        simp [stripV_vfun]
      · rw [if_neg hq]
        exact hob q
    simp only [objPass]
    have hIH := ih { schemas := a.schemas,
                     objs := mset a.objs ke.1 (validateEntity ctx a.schemas a.objs a.absent ke.2).1,
                     absent := (validateEntity ctx a.schemas a.objs a.absent ke.2).2,
                     trace := a.trace ++ [(ke.1, EntityKind.obj)] }
      hnd2 hsc hob2 (fun ke2 h2 => hes ke2 (List.mem_cons_of_mem _ h2))
    rw [hIH]
    by_cases hk : ke.1 = k
    · have hrest : mget rest k = none :=
        mget_eq_none_of_not_mem_keys (by rw [← hk]; exact hk1)
      simp only [mget, if_pos hk, hrest, hv, mget_mset, if_pos hk.symm]
    · simp only [mget, if_neg hk, mget_mset, if_neg (fun he : k = ke.1 => hk he.symm)]

theorem schemaPass_absent_mget (ctx : Ctx) {m0 ob0 : JsMap JsonEntity}
    (es : List (String × JsonEntity)) (a : PassAcc) (k : String) :
    ndk es →
    (∀ q, sview a.schemas q = sview m0 q) →
    (∀ q, sview a.objs q = sview ob0 q) →
    (∀ ke ∈ es, sview m0 ke.1 = some (stripV ke.2)) →
    mget (schemaPass ctx es a).absent k =
      if hitAbs m0 ob0 es k then some (createAbsentEntity k) else mget a.absent k := by
  induction es generalizing a with
  | nil => intro _ _ _ _; simp [schemaPass, hitAbs]
  | cons ke rest ih =>
    intro hnd hsc hob hes
    obtain ⟨hk1, hnd2⟩ := ndk_cons_iff.mp hnd
    have hv : validateEntity ctx a.schemas a.objs a.absent ke.2
        = (vfun ctx m0 ob0 ke.2, insAbsents a.absent (absIds m0 ob0 ke.2)) := by
      rw [validateEntity_eq, vfun_congr ctx hsc hob rfl, absIds_congr hsc hob rfl]
    have hsc2 : ∀ q, sview (mset a.schemas ke.1 (validateEntity ctx a.schemas a.objs a.absent ke.2).1) q = sview m0 q := by
      intro q
      rw [hv]
      simp only [sview, mget_mset]
      by_cases hq : q = ke.1
      · rw [if_pos hq, hq]
        have := hes ke (List.mem_cons_self _ _)
        simp only [sview] at this
        rw [this]
        simp [stripV_vfun]
      · rw [if_neg hq]
        exact hsc q
    simp only [schemaPass]
    have hIH := ih { schemas := mset a.schemas ke.1 (validateEntity ctx a.schemas a.objs a.absent ke.2).1,
                     objs := a.objs, absent := (validateEntity ctx a.schemas a.objs a.absent ke.2).2,
                     trace := a.trace ++ [(ke.1, EntityKind.schema)] }
      hnd2 hsc2 hob (fun ke2 h2 => hes ke2 (List.mem_cons_of_mem _ h2))
    rw [hIH]
    have habs : (validateEntity ctx a.schemas a.objs a.absent ke.2).2
        = insAbsents a.absent (absIds m0 ob0 ke.2) := by rw [hv]
    simp only [habs, mget_insAbsents, hitAbs, List.any_cons]
    by_cases h1 : hitAbs m0 ob0 rest k
    · simp only [hitAbs] at h1
      simp [h1]
    · simp only [hitAbs] at h1
      by_cases h2 : k ∈ absIds m0 ob0 ke.2
      · simp [h1, h2]
      · simp [h1, h2]

theorem objPass_absent_mget (ctx : Ctx) {sc0 ob0 : JsMap JsonEntity}
    (es : List (String × JsonEntity)) (a : PassAcc) (k : String) :
    ndk es →
    (∀ q, sview a.schemas q = sview sc0 q) →
    (∀ q, sview a.objs q = sview ob0 q) →
    (∀ ke ∈ es, sview ob0 ke.1 = some (stripV ke.2)) →
    mget (objPass ctx es a).absent k =
      if hitAbs sc0 ob0 es k then some (createAbsentEntity k) else mget a.absent k := by
  induction es generalizing a with
  | nil => intro _ _ _ _; simp [objPass, hitAbs]
  | cons ke rest ih =>
    intro hnd hsc hob hes
    obtain ⟨hk1, hnd2⟩ := ndk_cons_iff.mp hnd
    have hv : validateEntity ctx a.schemas a.objs a.absent ke.2
        = (vfun ctx sc0 ob0 ke.2, insAbsents a.absent (absIds sc0 ob0 ke.2)) := by
      rw [validateEntity_eq, vfun_congr ctx hsc hob rfl, absIds_congr hsc hob rfl]
    have hob2 : ∀ q, sview (mset a.objs ke.1 (validateEntity ctx a.schemas a.objs a.absent ke.2).1) q = sview ob0 q := by
      intro q
      rw [hv]
      simp only [sview, mget_mset]
      by_cases hq : q = ke.1
      · rw [if_pos hq, hq]
        have := hes ke (List.mem_cons_self _ _)
        simp only [sview] at this
        rw [this]
        simp [stripV_vfun]
      · rw [if_neg hq]
        exact hob q
    simp only [objPass]
    have hIH := ih { schemas := a.schemas,
                     objs := mset a.objs ke.1 (validateEntity ctx a.schemas a.objs a.absent ke.2).1,
                     absent := (validateEntity ctx a.schemas a.objs a.absent ke.2).2,
                     trace := a.trace ++ [(ke.1, EntityKind.obj)] }
      hnd2 hsc hob2 (fun ke2 h2 => hes ke2 (List.mem_cons_of_mem _ h2))
    rw [hIH]
    have habs : (validateEntity ctx a.schemas a.objs a.absent ke.2).2
        = insAbsents a.absent (absIds sc0 ob0 ke.2) := by rw [hv]
    simp only [habs, mget_insAbsents, hitAbs, List.any_cons]
    by_cases h1 : hitAbs sc0 ob0 rest k
    · simp only [hitAbs] at h1
      simp [h1]
    · simp only [hitAbs] at h1
      by_cases h2 : k ∈ absIds sc0 ob0 ke.2
      · simp [h1, h2]
      · simp [h1, h2]

/-! ## `validateEntities` characterizations -/

theorem vE_jsonFiles (ctx : Ctx) (s : RegState) : (vE ctx s).jsonFiles = s.jsonFiles := rfl

theorem vE_invalidFiles (ctx : Ctx) (s : RegState) : (vE ctx s).invalidFiles = s.invalidFiles := rfl

theorem vE_jsonFileObjs (ctx : Ctx) (s : RegState) : (vE ctx s).jsonFileObjs = s.jsonFileObjs := rfl

theorem vE_jsonFileSchemas (ctx : Ctx) (s : RegState) :
    (vE ctx s).jsonFileSchemas = s.jsonFileSchemas := rfl

theorem vE_fetchCache (ctx : Ctx) (s : RegState) : (vE ctx s).fetchCache = s.fetchCache := rfl

theorem vE_defaultFilePath (ctx : Ctx) (s : RegState) :
    (vE ctx s).defaultFilePath = s.defaultFilePath := rfl

theorem hes_of_ndk {m : JsMap JsonEntity} (h : ndk m) :
    ∀ ke ∈ m, sview m ke.1 = some (stripV ke.2) := by
  intro ke hke
  simp only [sview, mem_ndk_mget h hke, Option.map_some']

theorem vE_schemas_mget (ctx : Ctx) {s : RegState} (hs : ndk s.jsonSchemas) (k : String) :
    mget (vE ctx s).jsonSchemas k =
      (mget s.jsonSchemas k).map (vfun ctx s.jsonSchemas s.jsonObjs) := by
  have h1 := @schemaPass_schemas_mget ctx s.jsonSchemas s.jsonObjs
    s.jsonSchemas
    { schemas := s.jsonSchemas, objs := s.jsonObjs, absent := s.absentGtsEntities, trace := [] }
    k hs (fun _ => rfl) (fun _ => rfl) (hes_of_ndk hs)
  show mget (objPass ctx _ _).schemas k = _
  rw [objPass_schemas, h1]
  cases mget s.jsonSchemas k <;> simp

theorem vE_sview_schemas (ctx : Ctx) {s : RegState} (hs : ndk s.jsonSchemas) (k : String) :
    sview (vE ctx s).jsonSchemas k = sview s.jsonSchemas k := by
  simp only [sview, vE_schemas_mget ctx hs]
  cases mget s.jsonSchemas k <;> simp [stripV_vfun]

theorem vE_a1_objs (ctx : Ctx) (s : RegState) :
    (schemaPass ctx s.jsonSchemas
      { schemas := s.jsonSchemas, objs := s.jsonObjs, absent := s.absentGtsEntities,
        trace := [] }).objs = s.jsonObjs :=
  schemaPass_objs ctx _ _

theorem vE_objs_mget (ctx : Ctx) {s : RegState} (hs : ndk s.jsonSchemas)
    (ho : ndk s.jsonObjs) (k : String) :
    mget (vE ctx s).jsonObjs k =
      (mget s.jsonObjs k).map (vfun ctx s.jsonSchemas s.jsonObjs) := by
  have ha1sc : ∀ q, sview (schemaPass ctx s.jsonSchemas
      { schemas := s.jsonSchemas, objs := s.jsonObjs, absent := s.absentGtsEntities,
        trace := [] }).schemas q = sview s.jsonSchemas q := by
    intro q
    have h1 := @schemaPass_schemas_mget ctx s.jsonSchemas s.jsonObjs
      s.jsonSchemas
      { schemas := s.jsonSchemas, objs := s.jsonObjs, absent := s.absentGtsEntities, trace := [] }
      q hs (fun _ => rfl) (fun _ => rfl) (hes_of_ndk hs)
    simp only [sview, h1]
    cases mget s.jsonSchemas q <;> simp [stripV_vfun]
  have h2 := @objPass_objs_mget ctx s.jsonSchemas s.jsonObjs
    (schemaPass ctx s.jsonSchemas
      { schemas := s.jsonSchemas, objs := s.jsonObjs, absent := s.absentGtsEntities,
        trace := [] }).objs
    (schemaPass ctx s.jsonSchemas
      { schemas := s.jsonSchemas, objs := s.jsonObjs, absent := s.absentGtsEntities,
        trace := [] })
    k (by rw [vE_a1_objs]; exact ho) ha1sc
    (by rw [vE_a1_objs]; exact fun _ => rfl)
    (by rw [vE_a1_objs]; exact hes_of_ndk ho)
  show mget (objPass ctx _ _).objs k = _
  rw [h2, vE_a1_objs]
  cases mget s.jsonObjs k <;> simp

theorem vE_sview_objs (ctx : Ctx) {s : RegState} (hs : ndk s.jsonSchemas)
    (ho : ndk s.jsonObjs) (k : String) :
    sview (vE ctx s).jsonObjs k = sview s.jsonObjs k := by
  simp only [sview, vE_objs_mget ctx hs ho]
  cases mget s.jsonObjs k <;> simp [stripV_vfun]

theorem vE_absent_mget (ctx : Ctx) {s : RegState} (hs : ndk s.jsonSchemas)
    (ho : ndk s.jsonObjs) (k : String) :
    mget (vE ctx s).absentGtsEntities k =
      if hitState s k then some (createAbsentEntity k) else mget s.absentGtsEntities k := by
  have ha1sc : ∀ q, sview (schemaPass ctx s.jsonSchemas
      { schemas := s.jsonSchemas, objs := s.jsonObjs, absent := s.absentGtsEntities,
        trace := [] }).schemas q = sview s.jsonSchemas q := by
    intro q
    have h1 := @schemaPass_schemas_mget ctx s.jsonSchemas s.jsonObjs
      s.jsonSchemas
      { schemas := s.jsonSchemas, objs := s.jsonObjs, absent := s.absentGtsEntities, trace := [] }
      q hs (fun _ => rfl) (fun _ => rfl) (hes_of_ndk hs)
    simp only [sview, h1]
    cases mget s.jsonSchemas q <;> simp [stripV_vfun]
  have hA := @schemaPass_absent_mget ctx s.jsonSchemas s.jsonObjs
    s.jsonSchemas
    { schemas := s.jsonSchemas, objs := s.jsonObjs, absent := s.absentGtsEntities, trace := [] }
    k hs (fun _ => rfl) (fun _ => rfl) (hes_of_ndk hs)
  have hB := @objPass_absent_mget ctx s.jsonSchemas s.jsonObjs
    (schemaPass ctx s.jsonSchemas
      { schemas := s.jsonSchemas, objs := s.jsonObjs, absent := s.absentGtsEntities,
        trace := [] }).objs
    (schemaPass ctx s.jsonSchemas
      { schemas := s.jsonSchemas, objs := s.jsonObjs, absent := s.absentGtsEntities,
        trace := [] })
    k (by rw [vE_a1_objs]; exact ho) ha1sc
    (by rw [vE_a1_objs]; exact fun _ => rfl)
    (by rw [vE_a1_objs]; exact hes_of_ndk ho)
  show mget (objPass ctx _ _).absent k = _
  rw [hB, vE_a1_objs, hA]
  simp only [hitState, hitAbs, List.any_append]
  by_cases h1 : (s.jsonObjs.any (fun ke => decide (k ∈ absIds s.jsonSchemas s.jsonObjs ke.2))) = true
  · simp [h1]
  · by_cases h2 : (s.jsonSchemas.any (fun ke => decide (k ∈ absIds s.jsonSchemas s.jsonObjs ke.2))) = true
    · simp [h1, h2]
    · simp [h1, h2]

theorem vE_trace (ctx : Ctx) (s : RegState) :
    (validateEntities ctx s).2 =
      s.jsonSchemas.map (fun ke => (ke.1, EntityKind.schema)) ++
      s.jsonObjs.map (fun ke => (ke.1, EntityKind.obj)) := by
  show (objPass ctx _ _).trace = _
  rw [objPass_trace, vE_a1_objs, schemaPass_trace]
  simp

theorem vE_keys_schemas (ctx : Ctx) (s : RegState) :
    keysOf (vE ctx s).jsonSchemas = keysOf s.jsonSchemas := by
  show keysOf (objPass ctx _ _).schemas = _
  rw [objPass_schemas]
  exact schemaPass_keys ctx _ _ (fun ke hke => mem_mhas hke)

theorem vE_keys_objs (ctx : Ctx) (s : RegState) :
    keysOf (vE ctx s).jsonObjs = keysOf s.jsonObjs := by
  show keysOf (objPass ctx _ _).objs = _
  rw [objPass_keys ctx _ _ (by rw [vE_a1_objs]; exact fun ke hke => mem_mhas hke), vE_a1_objs]

theorem schemaPass_ndk_absent (ctx : Ctx) (es : List (String × JsonEntity)) (a : PassAcc)
    (h : ndk a.absent) : ndk (schemaPass ctx es a).absent := by
  induction es generalizing a with
  | nil => exact h
  | cons ke rest ih =>
    simp only [schemaPass]
    apply ih
    show ndk (validateEntity ctx a.schemas a.objs a.absent ke.2).2
    rw [validateEntity_eq]
    exact ndk_insAbsents _ h

theorem objPass_ndk_absent (ctx : Ctx) (es : List (String × JsonEntity)) (a : PassAcc)
    (h : ndk a.absent) : ndk (objPass ctx es a).absent := by
  induction es generalizing a with
  | nil => exact h
  | cons ke rest ih =>
    simp only [objPass]
    apply ih
    show ndk (validateEntity ctx a.schemas a.objs a.absent ke.2).2
    rw [validateEntity_eq]
    exact ndk_insAbsents _ h

theorem ndk_of_keysOf_eq {α β : Type} {m1 : JsMap α} {m2 : JsMap β}
    (h : keysOf m1 = keysOf m2) (h2 : ndk m2) : ndk m1 := by
  simpa [ndk, h] using h2

theorem WF_vE (ctx : Ctx) {s : RegState} (h : WF s) : WF (vE ctx s) := by
  obtain ⟨h1, h2, h3⟩ := h
  refine ⟨ndk_of_keysOf_eq (vE_keys_schemas ctx s) h1,
          ndk_of_keysOf_eq (vE_keys_objs ctx s) h2, ?_⟩
  show ndk (objPass ctx _ _).absent
  exact objPass_ndk_absent ctx _ _ (schemaPass_ndk_absent ctx _ _ h3)

/-! ## `invalidateFile` characterization -/

theorem mget_delAll (m : JsMap JsonEntity) (ids : List String) (k : String) :
    mget (delAll m ids) k = if k ∈ ids then none else mget m k := by
  induction ids generalizing m with
  | nil => simp [delAll]
  | cons i rest ih =>
    simp only [delAll, ih, mget_mdel, List.mem_cons]
    by_cases h1 : k ∈ rest
    · simp [h1]
    · by_cases h2 : k = i
      · simp [h1, h2]
      · simp [h1, h2]

theorem ndk_delAll {m : JsMap JsonEntity} (ids : List String)
    (h : ndk m) : ndk (delAll m ids) := by
  induction ids generalizing m with
  | nil => simpa [delAll] using h
  | cons i rest ih => exact ih (ndk_mdel _ h)

theorem invalidateFile_eq (s : RegState) (p : String) :
    invalidateFile s p =
      { jsonObjs := if mhas s.jsonFileObjs p then delAll s.jsonObjs ((mget s.jsonFileObjs p).getD []) else s.jsonObjs
        jsonSchemas := if mhas s.jsonFileSchemas p then delAll s.jsonSchemas ((mget s.jsonFileSchemas p).getD []) else s.jsonSchemas
        jsonFiles := if mhas s.jsonFiles p then mdel s.jsonFiles p else s.jsonFiles
        invalidFiles := if mhas s.invalidFiles p then mdel s.invalidFiles p else s.invalidFiles
        jsonFileObjs := if mhas s.jsonFileObjs p then mset (mdel s.jsonFileObjs p) p [] else s.jsonFileObjs
        jsonFileSchemas := if mhas s.jsonFileSchemas p then mset (mdel s.jsonFileSchemas p) p [] else s.jsonFileSchemas
        absentGtsEntities := s.absentGtsEntities
        fetchCache := s.fetchCache
        defaultFilePath := s.defaultFilePath } := by
  simp only [invalidateFile]
  by_cases h1 : mhas s.jsonFiles p <;>
  by_cases h2 : mhas s.invalidFiles p <;>
  by_cases h3 : mhas s.jsonFileObjs p <;>
  by_cases h4 : mhas s.jsonFileSchemas p <;>
  simp [h1, h2, h3, h4]

theorem inv_files_mget (s : RegState) (p k : String) :
    mget (invalidateFile s p).jsonFiles k = if k = p then none else mget s.jsonFiles k := by
  rw [invalidateFile_eq]
  by_cases h1 : mhas s.jsonFiles p
  · simp only [h1, if_true, mget_mdel]
  · simp only [h1, Bool.false_eq_true, if_false]
    by_cases hk : k = p
    · simp [hk, mget_eq_none_of_mhas_false (by simpa using h1)]
    · simp [hk]

theorem inv_invalid_mget (s : RegState) (p k : String) :
    mget (invalidateFile s p).invalidFiles k = if k = p then none else mget s.invalidFiles k := by
  rw [invalidateFile_eq]
  by_cases h1 : mhas s.invalidFiles p
  · simp only [h1, if_true, mget_mdel]
  · simp only [h1, Bool.false_eq_true, if_false]
    by_cases hk : k = p
    · simp [hk, mget_eq_none_of_mhas_false (by simpa using h1)]
    · simp [hk]

theorem inv_objs_mget (s : RegState) (p k : String) :
    mget (invalidateFile s p).jsonObjs k =
      if k ∈ ownedO s p then none else mget s.jsonObjs k := by
  rw [invalidateFile_eq]
  by_cases h1 : mhas s.jsonFileObjs p
  · simp only [h1, if_true, mget_delAll, ownedO]
  · have : mget s.jsonFileObjs p = none := mget_eq_none_of_mhas_false (by simpa using h1)
    simp [h1, ownedO, this]

theorem inv_schemas_mget (s : RegState) (p k : String) :
    mget (invalidateFile s p).jsonSchemas k =
      if k ∈ ownedS s p then none else mget s.jsonSchemas k := by
  rw [invalidateFile_eq]
  by_cases h1 : mhas s.jsonFileSchemas p
  · simp only [h1, if_true, mget_delAll, ownedS]
  · have : mget s.jsonFileSchemas p = none := mget_eq_none_of_mhas_false (by simpa using h1)
    simp [h1, ownedS, this]

theorem inv_fo_mget (s : RegState) (p k : String) :
    mget (invalidateFile s p).jsonFileObjs k =
      if k = p then (if mhas s.jsonFileObjs p then some [] else none)
      else mget s.jsonFileObjs k := by
  rw [invalidateFile_eq]
  by_cases h1 : mhas s.jsonFileObjs p
  · simp only [h1, if_true, mget_mset, mget_mdel]
    by_cases hk : k = p <;> simp [hk]
  · simp only [h1, Bool.false_eq_true, if_false]
    by_cases hk : k = p
    · simp [hk, mget_eq_none_of_mhas_false (by simpa using h1)]
    · simp [hk]

theorem inv_fs_mget (s : RegState) (p k : String) :
    mget (invalidateFile s p).jsonFileSchemas k =
      if k = p then (if mhas s.jsonFileSchemas p then some [] else none)
      else mget s.jsonFileSchemas k := by
  rw [invalidateFile_eq]
  by_cases h1 : mhas s.jsonFileSchemas p
  · simp only [h1, if_true, mget_mset, mget_mdel]
    by_cases hk : k = p <;> simp [hk]
  · simp only [h1, Bool.false_eq_true, if_false]
    by_cases hk : k = p
    · simp [hk, mget_eq_none_of_mhas_false (by simpa using h1)]
    · simp [hk]

theorem inv_absent (s : RegState) (p : String) :
    (invalidateFile s p).absentGtsEntities = s.absentGtsEntities := by
  rw [invalidateFile_eq]

theorem inv_cache (s : RegState) (p : String) :
    (invalidateFile s p).fetchCache = s.fetchCache := by
  rw [invalidateFile_eq]

theorem inv_default (s : RegState) (p : String) :
    (invalidateFile s p).defaultFilePath = s.defaultFilePath := by
  rw [invalidateFile_eq]

/-! ## The element loop in terms of the recognized entity list -/

theorem lastWith_eq_none (k : String) (l : List JsonEntity) :
    lastWith k l = none ↔ k ∉ l.map JsonEntity.id := by
  induction l with
  | nil => simp [lastWith]
  | cons e rest ih =>
    simp only [lastWith, List.map_cons, List.mem_cons]
    cases h : lastWith k rest with
    | some x =>
      have hk : k ∈ rest.map JsonEntity.id := by
        by_contra hc
        rw [← ih] at hc
        simp [h] at hc
      simp [hk]
    | none =>
      have hk : k ∉ rest.map JsonEntity.id := ih.mp h
      by_cases he : e.id = k
      · simp [he, hk]
      · simp [he, hk, Ne.symm he]

theorem registerEntity_preserved (s : RegState) (path : String) (e : JsonEntity) :
    (registerEntity s path e).jsonFiles = s.jsonFiles ∧
    (registerEntity s path e).invalidFiles = s.invalidFiles ∧
    (registerEntity s path e).absentGtsEntities = s.absentGtsEntities ∧
    (registerEntity s path e).fetchCache = s.fetchCache ∧
    (registerEntity s path e).defaultFilePath = s.defaultFilePath := by
  cases hk : e.kind <;> simp [registerEntity, hk]

theorem ingestLoop_preserved (ctx : Ctx) (jf : JsonFile) (path : String)
    (elems : List (Option Nat × JsonContent)) : ∀ (s : RegState) (hg : Bool),
    (ingestLoop ctx jf path elems s hg).1.jsonFiles = s.jsonFiles ∧
    (ingestLoop ctx jf path elems s hg).1.invalidFiles = s.invalidFiles ∧
    (ingestLoop ctx jf path elems s hg).1.absentGtsEntities = s.absentGtsEntities ∧
    (ingestLoop ctx jf path elems s hg).1.fetchCache = s.fetchCache ∧
    (ingestLoop ctx jf path elems s hg).1.defaultFilePath = s.defaultFilePath := by
  induction elems with
  | nil => intro s hg; exact ⟨rfl, rfl, rfl, rfl, rfl⟩
  | cons pr rest ih =>
    intro s hg
    simp only [ingestLoop]
    cases hce : ctx.createEntity jf pr.1 pr.2 with
    | none => exact ih s hg
    | some e =>
      by_cases hgts : e.isGts = true
      · simp only [hgts, if_true]
        obtain ⟨r1, r2, r3, r4, r5⟩ := registerEntity_preserved s path e
        obtain ⟨l1, l2, l3, l4, l5⟩ := ih (registerEntity s path e) true
        exact ⟨l1.trans r1, l2.trans r2, l3.trans r3, l4.trans r4, l5.trans r5⟩
      · simp only [hgts, Bool.false_eq_true, if_false]
        exact ih s hg

theorem ingestLoop_hg (ctx : Ctx) (jf : JsonFile) (path : String)
    (elems : List (Option Nat × JsonContent)) : ∀ (s : RegState) (hg : Bool),
    (ingestLoop ctx jf path elems s hg).2 = (hg || !(recEnts ctx jf elems).isEmpty) := by
  induction elems with
  | nil => intro s hg; simp [ingestLoop, recEnts]
  | cons pr rest ih =>
    intro s hg
    simp only [ingestLoop, recEnts]
    cases hce : ctx.createEntity jf pr.1 pr.2 with
    | none => exact ih s hg
    | some e =>
      by_cases hgts : e.isGts = true
      · simp only [hgts, if_true]
        rw [ih (registerEntity s path e) true]
        simp
      · simp only [hgts, Bool.false_eq_true, if_false]
        exact ih s hg

theorem ingestLoop_objs_mget (ctx : Ctx) (jf : JsonFile) (path : String)
    (elems : List (Option Nat × JsonContent)) : ∀ (s : RegState) (hg : Bool) (k : String),
    mget (ingestLoop ctx jf path elems s hg).1.jsonObjs k =
      match lastWith k (entsOfKind EntityKind.obj (recEnts ctx jf elems)) with
      | some e => some e
      | none => mget s.jsonObjs k := by
  induction elems with
  | nil => intro s hg k; simp [ingestLoop, recEnts, entsOfKind, lastWith]
  | cons pr rest ih =>
    intro s hg k
    simp only [ingestLoop, recEnts]
    cases hce : ctx.createEntity jf pr.1 pr.2 with
    | none => exact ih s hg k
    | some e =>
      by_cases hgts : e.isGts = true
      · simp only [hgts, if_true]
        rw [ih (registerEntity s path e) true k]
        cases hk : e.kind with
        | schema =>
          have hobjs : (registerEntity s path e).jsonObjs = s.jsonObjs := by
            simp [registerEntity, hk]
          have hfilter : entsOfKind EntityKind.obj (e :: recEnts ctx jf rest)
              = entsOfKind EntityKind.obj (recEnts ctx jf rest) := by
            simp [entsOfKind, List.filter_cons, hk]
          rw [hobjs, hfilter]
        | obj =>
          have hobjs : (registerEntity s path e).jsonObjs = mset s.jsonObjs e.id e := by
            simp [registerEntity, hk]
          have hfilter : entsOfKind EntityKind.obj (e :: recEnts ctx jf rest)
              = e :: entsOfKind EntityKind.obj (recEnts ctx jf rest) := by
            simp [entsOfKind, List.filter_cons, hk]
          rw [hobjs, hfilter]
          simp only [lastWith]
          cases hlw : lastWith k (entsOfKind EntityKind.obj (recEnts ctx jf rest)) with
          | some x => rfl
          | none =>
            simp only [mget_mset]
            by_cases hek : e.id = k
            · simp [hek]
            · have hke : ¬ k = e.id := fun h => hek h.symm
              simp [hek, hke]
      · simp only [hgts, Bool.false_eq_true, if_false]
        exact ih s hg k

theorem ingestLoop_schemas_mget (ctx : Ctx) (jf : JsonFile) (path : String)
    (elems : List (Option Nat × JsonContent)) : ∀ (s : RegState) (hg : Bool) (k : String),
    mget (ingestLoop ctx jf path elems s hg).1.jsonSchemas k =
      match lastWith k (entsOfKind EntityKind.schema (recEnts ctx jf elems)) with
      | some e => some e
      | none => mget s.jsonSchemas k := by
  induction elems with
  | nil => intro s hg k; simp [ingestLoop, recEnts, entsOfKind, lastWith]
  | cons pr rest ih =>
    intro s hg k
    simp only [ingestLoop, recEnts]
    cases hce : ctx.createEntity jf pr.1 pr.2 with
    | none => exact ih s hg k
    | some e =>
      by_cases hgts : e.isGts = true
      · simp only [hgts, if_true]
        rw [ih (registerEntity s path e) true k]
        cases hk : e.kind with
        | obj =>
          have hsch : (registerEntity s path e).jsonSchemas = s.jsonSchemas := by
            simp [registerEntity, hk]
          have hfilter : entsOfKind EntityKind.schema (e :: recEnts ctx jf rest)
              = entsOfKind EntityKind.schema (recEnts ctx jf rest) := by
            simp [entsOfKind, List.filter_cons, hk]
          rw [hsch, hfilter]
        | schema =>
          have hsch : (registerEntity s path e).jsonSchemas = mset s.jsonSchemas e.id e := by
            simp [registerEntity, hk]
          have hfilter : entsOfKind EntityKind.schema (e :: recEnts ctx jf rest)
              = e :: entsOfKind EntityKind.schema (recEnts ctx jf rest) := by
            simp [entsOfKind, List.filter_cons, hk]
          rw [hsch, hfilter]
          simp only [lastWith]
          cases hlw : lastWith k (entsOfKind EntityKind.schema (recEnts ctx jf rest)) with
          | some x => rfl
          | none =>
            simp only [mget_mset]
            by_cases hek : e.id = k
            · simp [hek]
            · have hke : ¬ k = e.id := fun h => hek h.symm
              simp [hek, hke]
      · simp only [hgts, Bool.false_eq_true, if_false]
        exact ih s hg k

theorem ingestLoop_fo_mget (ctx : Ctx) (jf : JsonFile) (path : String)
    (elems : List (Option Nat × JsonContent)) : ∀ (s : RegState) (hg : Bool) (k : String),
    mget (ingestLoop ctx jf path elems s hg).1.jsonFileObjs k =
      if k = path ∧ idsOfKind EntityKind.obj (recEnts ctx jf elems) ≠ [] then
        some (((mget s.jsonFileObjs path).getD []) ++ idsOfKind EntityKind.obj (recEnts ctx jf elems))
      else mget s.jsonFileObjs k := by
  induction elems with
  | nil => intro s hg k; simp [ingestLoop, recEnts, idsOfKind, entsOfKind]
  | cons pr rest ih =>
    intro s hg k
    simp only [ingestLoop, recEnts]
    cases hce : ctx.createEntity jf pr.1 pr.2 with
    | none => exact ih s hg k
    | some e =>
      by_cases hgts : e.isGts = true
      · simp only [hgts, if_true]
        rw [ih (registerEntity s path e) true k]
        cases hk : e.kind with
        | schema =>
          have hfo : (registerEntity s path e).jsonFileObjs = s.jsonFileObjs := by
            simp [registerEntity, hk]
          have hids : idsOfKind EntityKind.obj (e :: recEnts ctx jf rest)
              = idsOfKind EntityKind.obj (recEnts ctx jf rest) := by
            simp [idsOfKind, entsOfKind, List.filter_cons, hk]
          rw [hfo, hids]
        | obj =>
          have hfo : (registerEntity s path e).jsonFileObjs
              = mset s.jsonFileObjs path (((mget s.jsonFileObjs path).getD []) ++ [e.id]) := by
            simp [registerEntity, hk]
          have hids : idsOfKind EntityKind.obj (e :: recEnts ctx jf rest)
              = e.id :: idsOfKind EntityKind.obj (recEnts ctx jf rest) := by
            simp [idsOfKind, entsOfKind, List.filter_cons, hk]
          rw [hfo, hids]
          by_cases hkp : k = path
          · by_cases hrest : idsOfKind EntityKind.obj (recEnts ctx jf rest) = []
            · simp only [hrest, ne_eq, not_true_eq_false, and_false, if_false, mget_mset,
                if_pos hkp, hkp]
              simp [mget_mset]
            · simp only [hkp, hrest, ne_eq, not_false_eq_true, and_true, and_self, if_true,
                List.cons_ne_self]
              simp only [mget_mset, if_pos rfl, Option.getD_some]
              simp [List.append_assoc]
          · have h2 : mget (mset s.jsonFileObjs path (((mget s.jsonFileObjs path).getD []) ++ [e.id])) k
                = mget s.jsonFileObjs k := by
              rw [mget_mset, if_neg hkp]
            simp [hkp, h2]
      · simp only [hgts, Bool.false_eq_true, if_false]
        exact ih s hg k

theorem ingestLoop_fs_mget (ctx : Ctx) (jf : JsonFile) (path : String)
    (elems : List (Option Nat × JsonContent)) : ∀ (s : RegState) (hg : Bool) (k : String),
    mget (ingestLoop ctx jf path elems s hg).1.jsonFileSchemas k =
      if k = path ∧ idsOfKind EntityKind.schema (recEnts ctx jf elems) ≠ [] then
        some (((mget s.jsonFileSchemas path).getD []) ++ idsOfKind EntityKind.schema (recEnts ctx jf elems))
      else mget s.jsonFileSchemas k := by
  induction elems with
  | nil => intro s hg k; simp [ingestLoop, recEnts, idsOfKind, entsOfKind]
  | cons pr rest ih =>
    intro s hg k
    simp only [ingestLoop, recEnts]
    cases hce : ctx.createEntity jf pr.1 pr.2 with
    | none => exact ih s hg k
    | some e =>
      by_cases hgts : e.isGts = true
      · simp only [hgts, if_true]
        rw [ih (registerEntity s path e) true k]
        cases hk : e.kind with
        | obj =>
          have hfs : (registerEntity s path e).jsonFileSchemas = s.jsonFileSchemas := by
            simp [registerEntity, hk]
          have hids : idsOfKind EntityKind.schema (e :: recEnts ctx jf rest)
              = idsOfKind EntityKind.schema (recEnts ctx jf rest) := by
            simp [idsOfKind, entsOfKind, List.filter_cons, hk]
          rw [hfs, hids]
        | schema =>
          have hfs : (registerEntity s path e).jsonFileSchemas
              = mset s.jsonFileSchemas path (((mget s.jsonFileSchemas path).getD []) ++ [e.id]) := by
            simp [registerEntity, hk]
          have hids : idsOfKind EntityKind.schema (e :: recEnts ctx jf rest)
              = e.id :: idsOfKind EntityKind.schema (recEnts ctx jf rest) := by
            simp [idsOfKind, entsOfKind, List.filter_cons, hk]
          rw [hfs, hids]
          by_cases hkp : k = path
          · by_cases hrest : idsOfKind EntityKind.schema (recEnts ctx jf rest) = []
            · simp only [hrest, ne_eq, not_true_eq_false, and_false, if_false, mget_mset,
                if_pos hkp, hkp]
              simp [mget_mset]
            · simp only [hkp, hrest, ne_eq, not_false_eq_true, and_true, and_self, if_true,
                List.cons_ne_self]
              simp only [mget_mset, if_pos rfl, Option.getD_some]
              simp [List.append_assoc]
          · have h2 : mget (mset s.jsonFileSchemas path (((mget s.jsonFileSchemas path).getD []) ++ [e.id])) k
                = mget s.jsonFileSchemas k := by
              rw [mget_mset, if_neg hkp]
            simp [hkp, h2]
      · simp only [hgts, Bool.false_eq_true, if_false]
        exact ih s hg k

/-! ## `processFileContent` characterization -/

theorem P_files_mget (ctx : Ctx) (s : RegState) (p nm : String) (c : JsonContent) (k : String) :
    mget (processFileContent ctx s p nm c).jsonFiles k =
      if k = p then
        (if parseOkB ctx p nm c = true ∧ (newEnts ctx p nm c).isEmpty = false then
          some (mkJsonFile ctx p nm c) else none)
      else mget s.jsonFiles k := by
  simp only [processFileContent]
  by_cases hpe : (mkJsonFile ctx p nm c).parseErrors.isEmpty = true
  · simp only [hpe, if_true]
    have hresF := (ingestLoop_preserved ctx (mkJsonFile ctx p nm c) p (elementsOf c)
      (invalidateFile s p) false).1
    have hhg := ingestLoop_hg ctx (mkJsonFile ctx p nm c) p (elementsOf c)
      (invalidateFile s p) false
    have hmh : mhas (ingestLoop ctx (mkJsonFile ctx p nm c) p (elementsOf c)
        (invalidateFile s p) false).1.jsonFiles p = false := by
      rw [mhas_eq_isSome, hresF, inv_files_mget, if_pos rfl]
      rfl
    rw [hhg, hmh]
    by_cases hne : (recEnts ctx (mkJsonFile ctx p nm c) (elementsOf c)).isEmpty = true
    · have hnil : (newEnts ctx p nm c).isEmpty = true := hne
      simp only [hne, Bool.false_or, Bool.not_true, Bool.false_and, if_false,
        Bool.false_eq_true]
      rw [hresF, inv_files_mget]
      by_cases hk : k = p
      · simp [hk, hnil]
      · simp [hk]
    · have hneb : (recEnts ctx (mkJsonFile ctx p nm c) (elementsOf c)).isEmpty = false := by
        simpa using hne
      have hnil : (newEnts ctx p nm c).isEmpty = false := hneb
      simp only [hneb, Bool.false_or, Bool.not_false, Bool.not_true, Bool.and_true,
        Bool.true_and, if_true]
      show mget (mset (ingestLoop ctx (mkJsonFile ctx p nm c) p (elementsOf c)
        (invalidateFile s p) false).1.jsonFiles p (mkJsonFile ctx p nm c)) k = _
      rw [mget_mset]
      by_cases hk : k = p
      · simp [hk, hpe, hnil, parseOkB]
      · simp only [hk, if_false]
        rw [hresF, inv_files_mget, if_neg hk]
  · simp only [hpe, Bool.false_eq_true, if_false]
    have hpo : parseOkB ctx p nm c = false := by simpa [parseOkB] using hpe
    show mget (invalidateFile s p).jsonFiles k = _
    rw [inv_files_mget, hpo]
    simp

theorem P_invalid_mget (ctx : Ctx) (s : RegState) (p nm : String) (c : JsonContent) (k : String) :
    mget (processFileContent ctx s p nm c).invalidFiles k =
      if k = p then
        (if parseOkB ctx p nm c = true then none else some (mkJsonFile ctx p nm c))
      else mget s.invalidFiles k := by
  simp only [processFileContent]
  by_cases hpe : (mkJsonFile ctx p nm c).parseErrors.isEmpty = true
  · simp only [hpe, if_true]
    have hresI := (ingestLoop_preserved ctx (mkJsonFile ctx p nm c) p (elementsOf c)
      (invalidateFile s p) false).2.1
    have hgoal : mget (ingestLoop ctx (mkJsonFile ctx p nm c) p (elementsOf c)
        (invalidateFile s p) false).1.invalidFiles k =
        if k = p then
          (if parseOkB ctx p nm c = true then none else some (mkJsonFile ctx p nm c))
        else mget s.invalidFiles k := by
      rw [hresI, inv_invalid_mget]
      by_cases hk : k = p <;> simp [hk, parseOkB, hpe]
    by_cases hcond : ((ingestLoop ctx (mkJsonFile ctx p nm c) p (elementsOf c)
        (invalidateFile s p) false).2 &&
        !(mhas (ingestLoop ctx (mkJsonFile ctx p nm c) p (elementsOf c)
          (invalidateFile s p) false).1.jsonFiles p)) = true
    · simp only [hcond, if_true]
      exact hgoal
    · simp only [hcond, Bool.false_eq_true, if_false]
      exact hgoal
  · simp only [hpe, Bool.false_eq_true, if_false]
    have hpo : parseOkB ctx p nm c = false := by simpa [parseOkB] using hpe
    show mget (mset (invalidateFile s p).invalidFiles p (mkJsonFile ctx p nm c)) k = _
    rw [mget_mset]
    by_cases hk : k = p
    · simp [hk, hpo]
    · simp only [hk, if_false]
      rw [inv_invalid_mget, if_neg hk]

theorem P_objs_mget (ctx : Ctx) (s : RegState) (p nm : String) (c : JsonContent) (k : String) :
    mget (processFileContent ctx s p nm c).jsonObjs k =
      match (if parseOkB ctx p nm c = true then
          lastWith k (entsOfKind EntityKind.obj (newEnts ctx p nm c)) else none) with
      | some e => some e
      | none => if k ∈ ownedO s p then none else mget s.jsonObjs k := by
  simp only [processFileContent]
  by_cases hpe : (mkJsonFile ctx p nm c).parseErrors.isEmpty = true
  · simp only [hpe, if_true]
    have hloop := ingestLoop_objs_mget ctx (mkJsonFile ctx p nm c) p (elementsOf c)
      (invalidateFile s p) false k
    have hpo : parseOkB ctx p nm c = true := hpe
    by_cases hcond : ((ingestLoop ctx (mkJsonFile ctx p nm c) p (elementsOf c)
        (invalidateFile s p) false).2 &&
        !(mhas (ingestLoop ctx (mkJsonFile ctx p nm c) p (elementsOf c)
          (invalidateFile s p) false).1.jsonFiles p)) = true
    · simp only [hcond, if_true]
      show mget (ingestLoop ctx (mkJsonFile ctx p nm c) p (elementsOf c)
        (invalidateFile s p) false).1.jsonObjs k = _
      rw [hloop, hpo, if_pos rfl]
      simp only [newEnts]
      cases lastWith k (entsOfKind EntityKind.obj (recEnts ctx (mkJsonFile ctx p nm c) (elementsOf c))) with
      | some e => rfl
      | none => rw [inv_objs_mget]
    · simp only [hcond, Bool.false_eq_true, if_false]
      rw [hloop, hpo, if_pos rfl]
      simp only [newEnts]
      cases lastWith k (entsOfKind EntityKind.obj (recEnts ctx (mkJsonFile ctx p nm c) (elementsOf c))) with
      | some e => rfl
      | none => rw [inv_objs_mget]
  · simp only [hpe, Bool.false_eq_true, if_false]
    have hpo : parseOkB ctx p nm c = false := by simpa [parseOkB] using hpe
    show mget (invalidateFile s p).jsonObjs k = _
    rw [inv_objs_mget, hpo]
    simp

theorem P_schemas_mget (ctx : Ctx) (s : RegState) (p nm : String) (c : JsonContent) (k : String) :
    mget (processFileContent ctx s p nm c).jsonSchemas k =
      match (if parseOkB ctx p nm c = true then
          lastWith k (entsOfKind EntityKind.schema (newEnts ctx p nm c)) else none) with
      | some e => some e
      | none => if k ∈ ownedS s p then none else mget s.jsonSchemas k := by
  simp only [processFileContent]
  by_cases hpe : (mkJsonFile ctx p nm c).parseErrors.isEmpty = true
  · simp only [hpe, if_true]
    have hloop := ingestLoop_schemas_mget ctx (mkJsonFile ctx p nm c) p (elementsOf c)
      (invalidateFile s p) false k
    have hpo : parseOkB ctx p nm c = true := hpe
    by_cases hcond : ((ingestLoop ctx (mkJsonFile ctx p nm c) p (elementsOf c)
        (invalidateFile s p) false).2 &&
        !(mhas (ingestLoop ctx (mkJsonFile ctx p nm c) p (elementsOf c)
          (invalidateFile s p) false).1.jsonFiles p)) = true
    · simp only [hcond, if_true]
      show mget (ingestLoop ctx (mkJsonFile ctx p nm c) p (elementsOf c)
        (invalidateFile s p) false).1.jsonSchemas k = _
      rw [hloop, hpo, if_pos rfl]
      simp only [newEnts]
      cases lastWith k (entsOfKind EntityKind.schema (recEnts ctx (mkJsonFile ctx p nm c) (elementsOf c))) with
      | some e => rfl
      | none => rw [inv_schemas_mget]
    · simp only [hcond, Bool.false_eq_true, if_false]
      rw [hloop, hpo, if_pos rfl]
      simp only [newEnts]
      cases lastWith k (entsOfKind EntityKind.schema (recEnts ctx (mkJsonFile ctx p nm c) (elementsOf c))) with
      | some e => rfl
      | none => rw [inv_schemas_mget]
  · simp only [hpe, Bool.false_eq_true, if_false]
    have hpo : parseOkB ctx p nm c = false := by simpa [parseOkB] using hpe
    show mget (invalidateFile s p).jsonSchemas k = _
    rw [inv_schemas_mget, hpo]
    simp

theorem P_fo_mget (ctx : Ctx) (s : RegState) (p nm : String) (c : JsonContent) (k : String) :
    mget (processFileContent ctx s p nm c).jsonFileObjs k =
      if k = p then
        (if parseOkB ctx p nm c = true ∧ newObjIds ctx p nm c ≠ [] then some (newObjIds ctx p nm c)
         else (if mhas s.jsonFileObjs p then some [] else none))
      else mget s.jsonFileObjs k := by
  simp only [processFileContent]
  by_cases hpe : (mkJsonFile ctx p nm c).parseErrors.isEmpty = true
  · simp only [hpe, if_true]
    have hloop := ingestLoop_fo_mget ctx (mkJsonFile ctx p nm c) p (elementsOf c)
      (invalidateFile s p) false k
    have hbase : (mget (invalidateFile s p).jsonFileObjs p).getD [] = [] := by
      rw [inv_fo_mget, if_pos rfl]
      by_cases hm : mhas s.jsonFileObjs p <;> simp [hm]
    have hgoal : mget (ingestLoop ctx (mkJsonFile ctx p nm c) p (elementsOf c)
        (invalidateFile s p) false).1.jsonFileObjs k =
        if k = p then
          (if parseOkB ctx p nm c = true ∧ newObjIds ctx p nm c ≠ [] then some (newObjIds ctx p nm c)
           else (if mhas s.jsonFileObjs p then some [] else none))
        else mget s.jsonFileObjs k := by
      rw [hloop]
      by_cases hk : k = p
      · by_cases hids : idsOfKind EntityKind.obj (recEnts ctx (mkJsonFile ctx p nm c) (elementsOf c)) = []
        · have h2 : newObjIds ctx p nm c = [] := hids
          simp only [hk, hids, ne_eq, not_true_eq_false, and_false, if_false, h2, parseOkB, hpe,
            true_and]
          rw [inv_fo_mget, if_pos rfl]
          simp
        · have h2 : newObjIds ctx p nm c ≠ [] := hids
          simp only [hk, hids, ne_eq, not_false_eq_true, and_true, and_self, if_true, hbase,
            List.nil_append]
          simp [parseOkB, hpe, h2, newObjIds, newEnts, hids]
      · simp only [hk, false_and, if_false]
        rw [inv_fo_mget, if_neg hk]
    by_cases hcond : ((ingestLoop ctx (mkJsonFile ctx p nm c) p (elementsOf c)
        (invalidateFile s p) false).2 &&
        !(mhas (ingestLoop ctx (mkJsonFile ctx p nm c) p (elementsOf c)
          (invalidateFile s p) false).1.jsonFiles p)) = true
    · simp only [hcond, if_true]
      exact hgoal
    · simp only [hcond, Bool.false_eq_true, if_false]
      exact hgoal
  · simp only [hpe, Bool.false_eq_true, if_false]
    have hpo : parseOkB ctx p nm c = false := by simpa [parseOkB] using hpe
    show mget (invalidateFile s p).jsonFileObjs k = _
    rw [inv_fo_mget, hpo]
    simp

theorem P_fs_mget (ctx : Ctx) (s : RegState) (p nm : String) (c : JsonContent) (k : String) :
    mget (processFileContent ctx s p nm c).jsonFileSchemas k =
      if k = p then
        (if parseOkB ctx p nm c = true ∧ newSchIds ctx p nm c ≠ [] then some (newSchIds ctx p nm c)
         else (if mhas s.jsonFileSchemas p then some [] else none))
      else mget s.jsonFileSchemas k := by
  simp only [processFileContent]
  by_cases hpe : (mkJsonFile ctx p nm c).parseErrors.isEmpty = true
  · simp only [hpe, if_true]
    have hloop := ingestLoop_fs_mget ctx (mkJsonFile ctx p nm c) p (elementsOf c)
      (invalidateFile s p) false k
    have hbase : (mget (invalidateFile s p).jsonFileSchemas p).getD [] = [] := by
      rw [inv_fs_mget, if_pos rfl]
      by_cases hm : mhas s.jsonFileSchemas p <;> simp [hm]
    have hgoal : mget (ingestLoop ctx (mkJsonFile ctx p nm c) p (elementsOf c)
        (invalidateFile s p) false).1.jsonFileSchemas k =
        if k = p then
          (if parseOkB ctx p nm c = true ∧ newSchIds ctx p nm c ≠ [] then some (newSchIds ctx p nm c)
           else (if mhas s.jsonFileSchemas p then some [] else none))
        else mget s.jsonFileSchemas k := by
      rw [hloop]
      by_cases hk : k = p
      · by_cases hids : idsOfKind EntityKind.schema (recEnts ctx (mkJsonFile ctx p nm c) (elementsOf c)) = []
        · have h2 : newSchIds ctx p nm c = [] := hids
          simp only [hk, hids, ne_eq, not_true_eq_false, and_false, if_false, h2, parseOkB, hpe,
            true_and]
          rw [inv_fs_mget, if_pos rfl]
          simp
        · have h2 : newSchIds ctx p nm c ≠ [] := hids
          simp only [hk, hids, ne_eq, not_false_eq_true, and_true, and_self, if_true, hbase,
            List.nil_append]
          simp [parseOkB, hpe, h2, newSchIds, newEnts, hids]
      · simp only [hk, false_and, if_false]
        rw [inv_fs_mget, if_neg hk]
    by_cases hcond : ((ingestLoop ctx (mkJsonFile ctx p nm c) p (elementsOf c)
        (invalidateFile s p) false).2 &&
        !(mhas (ingestLoop ctx (mkJsonFile ctx p nm c) p (elementsOf c)
          (invalidateFile s p) false).1.jsonFiles p)) = true
    · simp only [hcond, if_true]
      exact hgoal
    · simp only [hcond, Bool.false_eq_true, if_false]
      exact hgoal
  · simp only [hpe, Bool.false_eq_true, if_false]
    have hpo : parseOkB ctx p nm c = false := by simpa [parseOkB] using hpe
    show mget (invalidateFile s p).jsonFileSchemas k = _
    rw [inv_fs_mget, hpo]
    simp

theorem P_absent (ctx : Ctx) (s : RegState) (p nm : String) (c : JsonContent) :
    (processFileContent ctx s p nm c).absentGtsEntities = s.absentGtsEntities := by
  simp only [processFileContent]
  by_cases hpe : (mkJsonFile ctx p nm c).parseErrors.isEmpty = true
  · simp only [hpe, if_true]
    have hres := (ingestLoop_preserved ctx (mkJsonFile ctx p nm c) p (elementsOf c)
      (invalidateFile s p) false).2.2.1
    by_cases hcond : ((ingestLoop ctx (mkJsonFile ctx p nm c) p (elementsOf c)
        (invalidateFile s p) false).2 &&
        !(mhas (ingestLoop ctx (mkJsonFile ctx p nm c) p (elementsOf c)
          (invalidateFile s p) false).1.jsonFiles p)) = true
    · simp only [hcond, if_true]
      show (ingestLoop ctx (mkJsonFile ctx p nm c) p (elementsOf c)
        (invalidateFile s p) false).1.absentGtsEntities = _
      rw [hres, inv_absent]
    · simp only [hcond, Bool.false_eq_true, if_false]
      rw [hres, inv_absent]
  · simp only [hpe, Bool.false_eq_true, if_false]
    show (invalidateFile s p).absentGtsEntities = _
    rw [inv_absent]

theorem P_cache (ctx : Ctx) (s : RegState) (p nm : String) (c : JsonContent) :
    (processFileContent ctx s p nm c).fetchCache = s.fetchCache := by
  simp only [processFileContent]
  by_cases hpe : (mkJsonFile ctx p nm c).parseErrors.isEmpty = true
  · simp only [hpe, if_true]
    have hres := (ingestLoop_preserved ctx (mkJsonFile ctx p nm c) p (elementsOf c)
      (invalidateFile s p) false).2.2.2.1
    by_cases hcond : ((ingestLoop ctx (mkJsonFile ctx p nm c) p (elementsOf c)
        (invalidateFile s p) false).2 &&
        !(mhas (ingestLoop ctx (mkJsonFile ctx p nm c) p (elementsOf c)
          (invalidateFile s p) false).1.jsonFiles p)) = true
    · simp only [hcond, if_true]
      show (ingestLoop ctx (mkJsonFile ctx p nm c) p (elementsOf c)
        (invalidateFile s p) false).1.fetchCache = _
      rw [hres, inv_cache]
    · simp only [hcond, Bool.false_eq_true, if_false]
      rw [hres, inv_cache]
  · simp only [hpe, Bool.false_eq_true, if_false]
    show (invalidateFile s p).fetchCache = _
    rw [inv_cache]

theorem P_default (ctx : Ctx) (s : RegState) (p nm : String) (c : JsonContent) :
    (processFileContent ctx s p nm c).defaultFilePath = s.defaultFilePath := by
  simp only [processFileContent]
  by_cases hpe : (mkJsonFile ctx p nm c).parseErrors.isEmpty = true
  · simp only [hpe, if_true]
    have hres := (ingestLoop_preserved ctx (mkJsonFile ctx p nm c) p (elementsOf c)
      (invalidateFile s p) false).2.2.2.2
    by_cases hcond : ((ingestLoop ctx (mkJsonFile ctx p nm c) p (elementsOf c)
        (invalidateFile s p) false).2 &&
        !(mhas (ingestLoop ctx (mkJsonFile ctx p nm c) p (elementsOf c)
          (invalidateFile s p) false).1.jsonFiles p)) = true
    · simp only [hcond, if_true]
      show (ingestLoop ctx (mkJsonFile ctx p nm c) p (elementsOf c)
        (invalidateFile s p) false).1.defaultFilePath = _
      rw [hres, inv_default]
    · simp only [hcond, Bool.false_eq_true, if_false]
      rw [hres, inv_default]
  · simp only [hpe, Bool.false_eq_true, if_false]
    show (invalidateFile s p).defaultFilePath = _
    rw [inv_default]

/-! ## Well-formedness preservation and observational equivalence -/

theorem ingestLoop_ndk (ctx : Ctx) (jf : JsonFile) (path : String)
    (elems : List (Option Nat × JsonContent)) : ∀ (s : RegState) (hg : Bool),
    ndk s.jsonObjs → ndk s.jsonSchemas →
    ndk (ingestLoop ctx jf path elems s hg).1.jsonObjs ∧
    ndk (ingestLoop ctx jf path elems s hg).1.jsonSchemas := by
  induction elems with
  | nil => intro s hg h1 h2; exact ⟨h1, h2⟩
  | cons pr rest ih =>
    intro s hg h1 h2
    simp only [ingestLoop]
    cases hce : ctx.createEntity jf pr.1 pr.2 with
    | none => exact ih s hg h1 h2
    | some e =>
      by_cases hgts : e.isGts = true
      · simp only [hgts, if_true]
        apply ih
        · cases hk : e.kind
          · simp only [registerEntity, hk]
            exact h1
          · simp only [registerEntity, hk]
            exact ndk_mset _ _ h1
        · cases hk : e.kind
          · simp only [registerEntity, hk]
            exact ndk_mset _ _ h2
          · simp only [registerEntity, hk]
            exact h2
      · simp only [hgts, Bool.false_eq_true, if_false]
        exact ih s hg h1 h2

theorem P_objs_structural (ctx : Ctx) (s : RegState) (p nm : String) (c : JsonContent) :
    (processFileContent ctx s p nm c).jsonObjs
      = (if (mkJsonFile ctx p nm c).parseErrors.isEmpty then
          (ingestLoop ctx (mkJsonFile ctx p nm c) p (elementsOf c)
            (invalidateFile s p) false).1.jsonObjs
        else (invalidateFile s p).jsonObjs) := by
  simp only [processFileContent]
  by_cases hpe : (mkJsonFile ctx p nm c).parseErrors.isEmpty = true
  · simp only [hpe, if_true]
    by_cases hcond : ((ingestLoop ctx (mkJsonFile ctx p nm c) p (elementsOf c)
        (invalidateFile s p) false).2 &&
        !(mhas (ingestLoop ctx (mkJsonFile ctx p nm c) p (elementsOf c)
          (invalidateFile s p) false).1.jsonFiles p)) = true
    · simp only [hcond, if_true]
    · simp only [hcond, Bool.false_eq_true, if_false]
  · simp only [hpe, Bool.false_eq_true, if_false]

theorem P_schemas_structural (ctx : Ctx) (s : RegState) (p nm : String) (c : JsonContent) :
    (processFileContent ctx s p nm c).jsonSchemas
      = (if (mkJsonFile ctx p nm c).parseErrors.isEmpty then
          (ingestLoop ctx (mkJsonFile ctx p nm c) p (elementsOf c)
            (invalidateFile s p) false).1.jsonSchemas
        else (invalidateFile s p).jsonSchemas) := by
  simp only [processFileContent]
  by_cases hpe : (mkJsonFile ctx p nm c).parseErrors.isEmpty = true
  · simp only [hpe, if_true]
    by_cases hcond : ((ingestLoop ctx (mkJsonFile ctx p nm c) p (elementsOf c)
        (invalidateFile s p) false).2 &&
        !(mhas (ingestLoop ctx (mkJsonFile ctx p nm c) p (elementsOf c)
          (invalidateFile s p) false).1.jsonFiles p)) = true
    · simp only [hcond, if_true]
    · simp only [hcond, Bool.false_eq_true, if_false]
  · simp only [hpe, Bool.false_eq_true, if_false]

theorem inv_ndk_objs {s : RegState} (p : String) (h : ndk s.jsonObjs) :
    ndk (invalidateFile s p).jsonObjs := by
  rw [invalidateFile_eq]
  by_cases hm : mhas s.jsonFileObjs p = true
  · simp only [hm, if_true]
    exact ndk_delAll _ h
  · simp only [hm, Bool.false_eq_true, if_false]
    exact h

theorem inv_ndk_schemas {s : RegState} (p : String) (h : ndk s.jsonSchemas) :
    ndk (invalidateFile s p).jsonSchemas := by
  rw [invalidateFile_eq]
  by_cases hm : mhas s.jsonFileSchemas p = true
  · simp only [hm, if_true]
    exact ndk_delAll _ h
  · simp only [hm, Bool.false_eq_true, if_false]
    exact h

theorem WF_P (ctx : Ctx) (p nm : String) (c : JsonContent) {s : RegState} (h : WF s) :
    WF (processFileContent ctx s p nm c) := by
  obtain ⟨h1, h2, h3⟩ := h
  have hio : ndk (invalidateFile s p).jsonObjs := inv_ndk_objs p h2
  have his : ndk (invalidateFile s p).jsonSchemas := inv_ndk_schemas p h1
  have hloop := ingestLoop_ndk ctx (mkJsonFile ctx p nm c) p (elementsOf c)
    (invalidateFile s p) false hio his
  refine ⟨?_, ?_, ?_⟩
  · rw [P_schemas_structural]
    by_cases hpe : (mkJsonFile ctx p nm c).parseErrors.isEmpty = true
    · simp only [hpe, if_true]
      exact hloop.2
    · simp only [hpe, Bool.false_eq_true, if_false]
      exact his
  · rw [P_objs_structural]
    by_cases hpe : (mkJsonFile ctx p nm c).parseErrors.isEmpty = true
    · simp only [hpe, if_true]
      exact hloop.1
    · simp only [hpe, Bool.false_eq_true, if_false]
      exact hio
  · rw [P_absent]
    exact h3

theorem Req_refl (s : RegState) : Req s s :=
  ⟨fun _ => rfl, fun _ => rfl, fun _ => rfl, fun _ => rfl, fun _ => rfl,
   fun _ => rfl, fun _ => rfl, rfl, rfl⟩

theorem hitAbs_true_iff (sc ob : JsMap JsonEntity) (es : List (String × JsonEntity)) (q : String) :
    hitAbs sc ob es q = true ↔ ∃ ke ∈ es, q ∈ absIds sc ob ke.2 := by
  simp [hitAbs, List.any_eq_true]

theorem hitAbs_le {sc1 sc2 ob1 ob2 : JsMap JsonEntity} {m1 m2 : JsMap JsonEntity}
    (hm1 : ndk m1) (hm : ∀ k, sview m1 k = sview m2 k)
    (hsc : ∀ k, sview sc1 k = sview sc2 k) (hob : ∀ k, sview ob1 k = sview ob2 k)
    {q : String} (h : hitAbs sc1 ob1 m1 q = true) : hitAbs sc2 ob2 m2 q = true := by
  rw [hitAbs_true_iff] at h ⊢
  obtain ⟨ke, hke, hq⟩ := h
  have h1 : mget m1 ke.1 = some ke.2 := mem_ndk_mget hm1 hke
  have h2 : sview m2 ke.1 = some (stripV ke.2) := by
    rw [← hm]
    simp [sview, h1]
  simp only [sview] at h2
  cases hg : mget m2 ke.1 with
  | none => rw [hg] at h2; simp at h2
  | some e2 =>
    rw [hg] at h2
    simp only [Option.map_some', Option.some.injEq] at h2
    refine ⟨(ke.1, e2), mget_some_mem hg, ?_⟩
    have habs : absIds sc1 ob1 ke.2 = absIds sc2 ob2 e2 :=
      absIds_congr hsc hob h2.symm
    rw [← habs]
    exact hq

theorem hitAbs_congr {sc1 sc2 ob1 ob2 : JsMap JsonEntity} {m1 m2 : JsMap JsonEntity}
    (hm1 : ndk m1) (hm2 : ndk m2) (hm : ∀ k, sview m1 k = sview m2 k)
    (hsc : ∀ k, sview sc1 k = sview sc2 k) (hob : ∀ k, sview ob1 k = sview ob2 k)
    (q : String) : hitAbs sc1 ob1 m1 q = hitAbs sc2 ob2 m2 q := by
  cases h1 : hitAbs sc1 ob1 m1 q with
  | true => exact (hitAbs_le hm1 hm hsc hob h1).symm
  | false =>
    cases h2 : hitAbs sc2 ob2 m2 q with
    | false => rfl
    | true =>
      have := hitAbs_le hm2 (fun k => (hm k).symm) (fun k => (hsc k).symm)
        (fun k => (hob k).symm) h2
      rw [h1] at this
      cases this

theorem hitState_split (s : RegState) (q : String) :
    hitState s q = (hitAbs s.jsonSchemas s.jsonObjs s.jsonSchemas q ||
      hitAbs s.jsonSchemas s.jsonObjs s.jsonObjs q) := by
  simp [hitState, hitAbs, List.any_append]

theorem hitState_congr {s1 s2 : RegState} (h1 : WF s1) (h2 : WF s2)
    (hsc : ∀ k, sview s1.jsonSchemas k = sview s2.jsonSchemas k)
    (hob : ∀ k, sview s1.jsonObjs k = sview s2.jsonObjs k) (q : String) :
    hitState s1 q = hitState s2 q := by
  rw [hitState_split, hitState_split,
    hitAbs_congr h1.1 h2.1 hsc hsc hob q, hitAbs_congr h1.2.1 h2.2.1 hob hsc hob q]

theorem vE_obs (ctx : Ctx) {s1 s2 : RegState} (h1 : WF s1) (h2 : WF s2)
    (hsc : ∀ k, sview s1.jsonSchemas k = sview s2.jsonSchemas k)
    (hob : ∀ k, sview s1.jsonObjs k = sview s2.jsonObjs k)
    (hfl : ∀ k, mget s1.jsonFiles k = mget s2.jsonFiles k)
    (hinv : ∀ k, mget s1.invalidFiles k = mget s2.invalidFiles k)
    (hfo : ∀ k, mget s1.jsonFileObjs k = mget s2.jsonFileObjs k)
    (hfs : ∀ k, mget s1.jsonFileSchemas k = mget s2.jsonFileSchemas k)
    (hca : s1.fetchCache = s2.fetchCache) (hdf : s1.defaultFilePath = s2.defaultFilePath)
    (hab : ∀ k, hitState s2 k = false →
      mget s1.absentGtsEntities k = mget s2.absentGtsEntities k) :
    Req (vE ctx s1) (vE ctx s2) := by
  refine ⟨?_, ?_, ?_, ?_, ?_, ?_, ?_, ?_, ?_⟩
  · intro k
    rw [vE_objs_mget ctx h1.1 h1.2.1, vE_objs_mget ctx h2.1 h2.2.1]
    have hv := hob k
    simp only [sview] at hv
    cases hg1 : mget s1.jsonObjs k with
    | none =>
      cases hg2 : mget s2.jsonObjs k with
      | none => simp
      | some b => rw [hg1, hg2] at hv; simp at hv
    | some a =>
      cases hg2 : mget s2.jsonObjs k with
      | none => rw [hg1, hg2] at hv; simp at hv
      | some b =>
        rw [hg1, hg2] at hv
        simp only [Option.map_some', Option.some.injEq] at hv
        simp only [Option.map_some', Option.some.injEq]
        exact vfun_congr ctx hsc hob hv
  · intro k
    rw [vE_schemas_mget ctx h1.1, vE_schemas_mget ctx h2.1]
    have hv := hsc k
    simp only [sview] at hv
    cases hg1 : mget s1.jsonSchemas k with
    | none =>
      cases hg2 : mget s2.jsonSchemas k with
      | none => simp
      | some b => rw [hg1, hg2] at hv; simp at hv
    | some a =>
      cases hg2 : mget s2.jsonSchemas k with
      | none => rw [hg1, hg2] at hv; simp at hv
      | some b =>
        rw [hg1, hg2] at hv
        simp only [Option.map_some', Option.some.injEq] at hv
        simp only [Option.map_some', Option.some.injEq]
        exact vfun_congr ctx hsc hob hv
  · intro k
    rw [vE_jsonFiles, vE_jsonFiles]
    exact hfl k
  · intro k
    rw [vE_invalidFiles, vE_invalidFiles]
    exact hinv k
  · intro k
    rw [vE_jsonFileObjs, vE_jsonFileObjs]
    exact hfo k
  · intro k
    rw [vE_jsonFileSchemas, vE_jsonFileSchemas]
    exact hfs k
  · intro k
    rw [vE_absent_mget ctx h1.1 h1.2.1, vE_absent_mget ctx h2.1 h2.2.1]
    have hh := hitState_congr h1 h2 hsc hob k
    cases hq : hitState s2 k with
    | true =>
      rw [hh, hq]
      simp
    | false =>
      rw [hh, hq]
      simp only [Bool.false_eq_true, if_false]
      exact hab k hq
  · rw [vE_fetchCache, vE_fetchCache]
    exact hca
  · rw [vE_defaultFilePath, vE_defaultFilePath]
    exact hdf

/-! ## Idempotence and congruence of `processFileContent` -/

theorem ownedO_P (ctx : Ctx) (s : RegState) (p nm : String) (c : JsonContent) :
    ownedO (processFileContent ctx s p nm c) p
      = (if parseOkB ctx p nm c = true ∧ newObjIds ctx p nm c ≠ [] then
          newObjIds ctx p nm c else []) := by
  simp only [ownedO, P_fo_mget, if_pos rfl]
  by_cases h : parseOkB ctx p nm c = true ∧ newObjIds ctx p nm c ≠ []
  · simp [h]
  · simp only [h, if_false]
    by_cases hm : mhas s.jsonFileObjs p = true <;> simp [hm]

theorem ownedS_P (ctx : Ctx) (s : RegState) (p nm : String) (c : JsonContent) :
    ownedS (processFileContent ctx s p nm c) p
      = (if parseOkB ctx p nm c = true ∧ newSchIds ctx p nm c ≠ [] then
          newSchIds ctx p nm c else []) := by
  simp only [ownedS, P_fs_mget, if_pos rfl]
  by_cases h : parseOkB ctx p nm c = true ∧ newSchIds ctx p nm c ≠ []
  · simp [h]
  · simp only [h, if_false]
    by_cases hm : mhas s.jsonFileSchemas p = true <;> simp [hm]

theorem mhas_fo_P (ctx : Ctx) (s : RegState) (p nm : String) (c : JsonContent)
    (h : ¬ (parseOkB ctx p nm c = true ∧ newObjIds ctx p nm c ≠ [])) :
    mhas (processFileContent ctx s p nm c).jsonFileObjs p = mhas s.jsonFileObjs p := by
  rw [mhas_eq_isSome, P_fo_mget, if_pos rfl, if_neg h]
  by_cases hm : mhas s.jsonFileObjs p = true <;> simp [hm]

theorem mhas_fs_P (ctx : Ctx) (s : RegState) (p nm : String) (c : JsonContent)
    (h : ¬ (parseOkB ctx p nm c = true ∧ newSchIds ctx p nm c ≠ [])) :
    mhas (processFileContent ctx s p nm c).jsonFileSchemas p = mhas s.jsonFileSchemas p := by
  rw [mhas_eq_isSome, P_fs_mget, if_pos rfl, if_neg h]
  by_cases hm : mhas s.jsonFileSchemas p = true <;> simp [hm]

theorem P_idem (ctx : Ctx) (s : RegState) (p nm : String) (c : JsonContent) :
    Req (processFileContent ctx (processFileContent ctx s p nm c) p nm c)
        (processFileContent ctx s p nm c) := by
  refine ⟨?_, ?_, ?_, ?_, ?_, ?_, ?_, ?_, ?_⟩
  · intro k
    have hOuter := P_objs_mget ctx (processFileContent ctx s p nm c) p nm c k
    have hInner := P_objs_mget ctx s p nm c k
    rw [hOuter, hInner]
    cases hL : (if parseOkB ctx p nm c = true then
        lastWith k (entsOfKind EntityKind.obj (newEnts ctx p nm c)) else none) with
    | some e => rfl
    | none =>
      have hnot : k ∉ ownedO (processFileContent ctx s p nm c) p := by
        rw [ownedO_P]
        by_cases hcase : parseOkB ctx p nm c = true ∧ newObjIds ctx p nm c ≠ []
        · rw [if_pos hcase]
          intro hmem
          rw [if_pos hcase.1] at hL
          exact (lastWith_eq_none k _).mp hL hmem
        · rw [if_neg hcase]
          simp
      rw [if_neg hnot]
  · intro k
    have hOuter := P_schemas_mget ctx (processFileContent ctx s p nm c) p nm c k
    have hInner := P_schemas_mget ctx s p nm c k
    rw [hOuter, hInner]
    cases hL : (if parseOkB ctx p nm c = true then
        lastWith k (entsOfKind EntityKind.schema (newEnts ctx p nm c)) else none) with
    | some e => rfl
    | none =>
      have hnot : k ∉ ownedS (processFileContent ctx s p nm c) p := by
        rw [ownedS_P]
        by_cases hcase : parseOkB ctx p nm c = true ∧ newSchIds ctx p nm c ≠ []
        · rw [if_pos hcase]
          intro hmem
          rw [if_pos hcase.1] at hL
          exact (lastWith_eq_none k _).mp hL hmem
        · rw [if_neg hcase]
          simp
      rw [if_neg hnot]
  · intro k
    have hOuter := P_files_mget ctx (processFileContent ctx s p nm c) p nm c k
    have hInner := P_files_mget ctx s p nm c k
    rw [hOuter]
    by_cases hk : k = p
    · rw [if_pos hk, hInner, if_pos hk]
    · rw [if_neg hk]
  · intro k
    have hOuter := P_invalid_mget ctx (processFileContent ctx s p nm c) p nm c k
    have hInner := P_invalid_mget ctx s p nm c k
    rw [hOuter]
    by_cases hk : k = p
    · rw [if_pos hk, hInner, if_pos hk]
    · rw [if_neg hk]
  · intro k
    have hOuter := P_fo_mget ctx (processFileContent ctx s p nm c) p nm c k
    have hInner := P_fo_mget ctx s p nm c k
    rw [hOuter, hInner]
    by_cases hk : k = p
    · rw [if_pos hk, if_pos hk]
      by_cases hcase : parseOkB ctx p nm c = true ∧ newObjIds ctx p nm c ≠ []
      · rw [if_pos hcase, if_pos hcase]
      · rw [if_neg hcase, if_neg hcase, mhas_fo_P ctx s p nm c hcase]
    · rw [if_neg hk, if_neg hk]
  · intro k
    have hOuter := P_fs_mget ctx (processFileContent ctx s p nm c) p nm c k
    have hInner := P_fs_mget ctx s p nm c k
    rw [hOuter, hInner]
    by_cases hk : k = p
    · rw [if_pos hk, if_pos hk]
      by_cases hcase : parseOkB ctx p nm c = true ∧ newSchIds ctx p nm c ≠ []
      · rw [if_pos hcase, if_pos hcase]
      · rw [if_neg hcase, if_neg hcase, mhas_fs_P ctx s p nm c hcase]
    · rw [if_neg hk, if_neg hk]
  · intro k
    rw [P_absent, P_absent]
  · rw [P_cache, P_cache]
  · rw [P_default, P_default]

theorem P_sview_objs (ctx : Ctx) (p nm : String) (c : JsonContent) {x y : RegState}
    (hob : ∀ k, sview x.jsonObjs k = sview y.jsonObjs k)
    (hfo : ∀ k, mget x.jsonFileObjs k = mget y.jsonFileObjs k) (k : String) :
    sview (processFileContent ctx x p nm c).jsonObjs k
      = sview (processFileContent ctx y p nm c).jsonObjs k := by
  simp only [sview]
  rw [P_objs_mget, P_objs_mget]
  have how : ownedO x p = ownedO y p := by rw [ownedO, ownedO, hfo p]
  cases hL : (if parseOkB ctx p nm c = true then
      lastWith k (entsOfKind EntityKind.obj (newEnts ctx p nm c)) else none) with
  | some e => rfl
  | none =>
    rw [how]
    by_cases hmem : k ∈ ownedO y p
    · rw [if_pos hmem, if_pos hmem]
    · rw [if_neg hmem, if_neg hmem]
      exact hob k

theorem P_sview_schemas (ctx : Ctx) (p nm : String) (c : JsonContent) {x y : RegState}
    (hsc : ∀ k, sview x.jsonSchemas k = sview y.jsonSchemas k)
    (hfs : ∀ k, mget x.jsonFileSchemas k = mget y.jsonFileSchemas k) (k : String) :
    sview (processFileContent ctx x p nm c).jsonSchemas k
      = sview (processFileContent ctx y p nm c).jsonSchemas k := by
  simp only [sview]
  rw [P_schemas_mget, P_schemas_mget]
  have how : ownedS x p = ownedS y p := by rw [ownedS, ownedS, hfs p]
  cases hL : (if parseOkB ctx p nm c = true then
      lastWith k (entsOfKind EntityKind.schema (newEnts ctx p nm c)) else none) with
  | some e => rfl
  | none =>
    rw [how]
    by_cases hmem : k ∈ ownedS y p
    · rw [if_pos hmem, if_pos hmem]
    · rw [if_neg hmem, if_neg hmem]
      exact hsc k

theorem P_files_congr (ctx : Ctx) (p nm : String) (c : JsonContent) {x y : RegState}
    (hfl : ∀ k, mget x.jsonFiles k = mget y.jsonFiles k) (k : String) :
    mget (processFileContent ctx x p nm c).jsonFiles k
      = mget (processFileContent ctx y p nm c).jsonFiles k := by
  rw [P_files_mget, P_files_mget]
  by_cases hk : k = p
  · rw [if_pos hk, if_pos hk]
  · rw [if_neg hk, if_neg hk]
    exact hfl k

theorem P_invalid_congr (ctx : Ctx) (p nm : String) (c : JsonContent) {x y : RegState}
    (hinv : ∀ k, mget x.invalidFiles k = mget y.invalidFiles k) (k : String) :
    mget (processFileContent ctx x p nm c).invalidFiles k
      = mget (processFileContent ctx y p nm c).invalidFiles k := by
  rw [P_invalid_mget, P_invalid_mget]
  by_cases hk : k = p
  · rw [if_pos hk, if_pos hk]
  · rw [if_neg hk, if_neg hk]
    exact hinv k

theorem P_fo_congr (ctx : Ctx) (p nm : String) (c : JsonContent) {x y : RegState}
    (hfo : ∀ k, mget x.jsonFileObjs k = mget y.jsonFileObjs k) (k : String) :
    mget (processFileContent ctx x p nm c).jsonFileObjs k
      = mget (processFileContent ctx y p nm c).jsonFileObjs k := by
  rw [P_fo_mget, P_fo_mget]
  by_cases hk : k = p
  · rw [if_pos hk, if_pos hk]
    have hm : mhas x.jsonFileObjs p = mhas y.jsonFileObjs p := by
      rw [mhas_eq_isSome, mhas_eq_isSome, hfo p]
    rw [hm]
  · rw [if_neg hk, if_neg hk]
    exact hfo k

theorem P_fs_congr (ctx : Ctx) (p nm : String) (c : JsonContent) {x y : RegState}
    (hfs : ∀ k, mget x.jsonFileSchemas k = mget y.jsonFileSchemas k) (k : String) :
    mget (processFileContent ctx x p nm c).jsonFileSchemas k
      = mget (processFileContent ctx y p nm c).jsonFileSchemas k := by
  rw [P_fs_mget, P_fs_mget]
  by_cases hk : k = p
  · rw [if_pos hk, if_pos hk]
    have hm : mhas x.jsonFileSchemas p = mhas y.jsonFileSchemas p := by
      rw [mhas_eq_isSome, mhas_eq_isSome, hfs p]
    rw [hm]
  · rw [if_neg hk, if_neg hk]
    exact hfs k

theorem ingestFiles_one (ctx : Ctx) (f : IngFile) (s : RegState) :
    ingestFiles ctx [f] s =
      vE ctx (if isSkippedPath f.path then s
        else processFileContent ctx s f.path f.name f.content) := by
  simp only [ingestFiles, vE, List.foldl]

theorem ingestFiles_two (ctx : Ctx) (f : IngFile) (s : RegState) :
    ingestFiles ctx [f, f] s =
      vE ctx (if isSkippedPath f.path then s
        else processFileContent ctx (processFileContent ctx s f.path f.name f.content)
          f.path f.name f.content) := by
  simp only [ingestFiles, vE, List.foldl]
  by_cases hs : isSkippedPath f.path = true <;> simp [hs]

/-! ## Concrete fixtures for counterexamples and witnesses -/

theorem Req_trans {a b c : RegState} (h1 : Req a b) (h2 : Req b c) : Req a c := by
  obtain ⟨a1, a2, a3, a4, a5, a6, a7, a8, a9⟩ := h1
  obtain ⟨b1, b2, b3, b4, b5, b6, b7, b8, b9⟩ := h2
  exact ⟨fun k => (a1 k).trans (b1 k), fun k => (a2 k).trans (b2 k),
         fun k => (a3 k).trans (b3 k), fun k => (a4 k).trans (b4 k),
         fun k => (a5 k).trans (b5 k), fun k => (a6 k).trans (b6 k),
         fun k => (a7 k).trans (b7 k), a8.trans b8, a9.trans b9⟩

/-! ## C3 -/

/-- C3 (counterexample): ingesting the file `p` (declaring the id `Z`
already owned by path `q`) twice — in one batch or in two successive
calls — does not reproduce the state of ingesting it once: the entity
map ends up in a different insertion order, so the registry states are
not identical. -/
theorem c3_counterexample :
    keysOf (ingestFiles ctxT [fpX] cexBase).jsonObjs = ["Z", "W"] ∧
    keysOf (ingestFiles ctxT [fpX, fpX] cexBase).jsonObjs = ["W", "Z"] ∧
    keysOf (ingestFiles ctxT [fpX] (ingestFiles ctxT [fpX] cexBase)).jsonObjs = ["W", "Z"] := by
  decide

/-- C3 (amended): for every file and configuration, ingesting the same
file twice — in one batch or in two successive calls — yields a registry
state observationally identical to ingesting it once: every index maps
the same keys to the same values and the default-file pointer agrees;
only the insertion order of entity-map entries may differ (it does
differ exactly when the file re-registers an id owned by another path). -/
theorem c3_amended (ctx : Ctx) (f : IngFile) (s : RegState) (hwf : WF s) :
    Req (ingestFiles ctx [f, f] s) (ingestFiles ctx [f] s) ∧
    Req (ingestFiles ctx [f] (ingestFiles ctx [f] s)) (ingestFiles ctx [f] s) := by
  rw [ingestFiles_two, ingestFiles_one, ingestFiles_one]
  by_cases hs : isSkippedPath f.path = true
  · simp only [if_pos hs]
    constructor
    · exact Req_refl _
    · apply vE_obs ctx (WF_vE ctx hwf) hwf
      · exact fun k => vE_sview_schemas ctx hwf.1 k
      · exact fun k => vE_sview_objs ctx hwf.1 hwf.2.1 k
      · intro k
        rw [vE_jsonFiles]
      · intro k
        rw [vE_invalidFiles]
      · intro k
        rw [vE_jsonFileObjs]
      · intro k
        rw [vE_jsonFileSchemas]
      · rw [vE_fetchCache]
      · rw [vE_defaultFilePath]
      · intro k hk
        rw [vE_absent_mget ctx hwf.1 hwf.2.1, hk]
        simp
  · simp only [if_neg hs]
    have hWFt : WF (processFileContent ctx s f.path f.name f.content) :=
      WF_P ctx f.path f.name f.content hwf
    have hWFPt : WF (processFileContent ctx
        (processFileContent ctx s f.path f.name f.content) f.path f.name f.content) :=
      WF_P ctx f.path f.name f.content hWFt
    obtain ⟨ho, hsc2, hfl, hinv, hfo, hfs, hab2, hca, hdf⟩ :=
      P_idem ctx s f.path f.name f.content
    have hbatch : Req
        (vE ctx (processFileContent ctx
          (processFileContent ctx s f.path f.name f.content) f.path f.name f.content))
        (vE ctx (processFileContent ctx s f.path f.name f.content)) := by
      apply vE_obs ctx hWFPt hWFt
      · intro k
        simp only [sview]
        rw [hsc2 k]
      · intro k
        simp only [sview]
        rw [ho k]
      · exact hfl
      · exact hinv
      · exact hfo
      · exact hfs
      · exact hca
      · exact hdf
      · exact fun k _ => hab2 k
    refine ⟨hbatch, ?_⟩
    have hWFu : WF (vE ctx (processFileContent ctx s f.path f.name f.content)) :=
      WF_vE ctx hWFt
    have hWFPu : WF (processFileContent ctx
        (vE ctx (processFileContent ctx s f.path f.name f.content)) f.path f.name f.content) :=
      WF_P ctx f.path f.name f.content hWFu
    have hsucc : Req
        (vE ctx (processFileContent ctx
          (vE ctx (processFileContent ctx s f.path f.name f.content)) f.path f.name f.content))
        (vE ctx (processFileContent ctx
          (processFileContent ctx s f.path f.name f.content) f.path f.name f.content)) := by
      apply vE_obs ctx hWFPu hWFPt
      · intro k
        apply P_sview_schemas ctx f.path f.name f.content
        · exact fun q => vE_sview_schemas ctx hWFt.1 q
        · intro q
          rw [vE_jsonFileSchemas]
      · intro k
        apply P_sview_objs ctx f.path f.name f.content
        · exact fun q => vE_sview_objs ctx hWFt.1 hWFt.2.1 q
        · intro q
          rw [vE_jsonFileObjs]
      · intro k
        apply P_files_congr ctx f.path f.name f.content
        intro q
        rw [vE_jsonFiles]
      · intro k
        apply P_invalid_congr ctx f.path f.name f.content
        intro q
        rw [vE_invalidFiles]
      · intro k
        apply P_fo_congr ctx f.path f.name f.content
        intro q
        rw [vE_jsonFileObjs]
      · intro k
        apply P_fs_congr ctx f.path f.name f.content
        intro q
        rw [vE_jsonFileSchemas]
      · rw [P_cache, P_cache, vE_fetchCache]
      · rw [P_default, P_default, vE_defaultFilePath]
      · intro k hq
        have hhit := hitState_congr hWFPt hWFt
          (fun q => by simp only [sview]; rw [hsc2 q])
          (fun q => by simp only [sview]; rw [ho q]) k
        rw [hhit] at hq
        rw [P_absent, P_absent, vE_absent_mget ctx hWFt.1 hWFt.2.1, hq]
        simp
    exact Req_trans hsucc hbatch

/-- C3 (witness): the amended idempotence applied to the concrete
clobbering scenario. -/
theorem c3_amended_witness :
    WF cexBase ∧
    mget (ingestFiles ctxT [fpX, fpX] cexBase).jsonObjs "Z"
      = mget (ingestFiles ctxT [fpX] cexBase).jsonObjs "Z" :=
  ⟨by unfold WF ndk; decide, (c3_amended ctxT fpX cexBase (by unfold WF ndk; decide)).1.1 "Z"⟩

/-! ## C1 -/

/-- C1 (counterexample): path `A` and path `B` both declared entity id
`X`; `X` is currently attributed to `B` (it clobbered the registration
from `A`), yet `invalidateFile "A"` deletes `X` from the object index,
removing the entity owned by `B`. -/
theorem c1_counterexample :
    mhas cexRegAB.jsonObjs "X" = true ∧
    (mget cexRegAB.jsonFileObjs "B").getD [] = ["X"] ∧
    mhas (invalidateFile cexRegAB "A").jsonObjs "X" = false := by
  decide

/-- C1 (amended): `invalidateFile p` deletes from the main indices
exactly the ids listed in the per-path ownership lists of `p`; an entity
owned by another path survives whenever its id is not also attributed to
`p` — but an id clobbered across paths is removed. -/
theorem c1_amended (s : RegState) (p k : String) :
    (mget (invalidateFile s p).jsonObjs k
        = (if k ∈ ownedO s p then none else mget s.jsonObjs k)) ∧
    (mget (invalidateFile s p).jsonSchemas k
        = (if k ∈ ownedS s p then none else mget s.jsonSchemas k)) ∧
    (∀ q : String, q ≠ p → k ∈ ownedO s q → k ∉ ownedO s p →
        mget (invalidateFile s p).jsonObjs k = mget s.jsonObjs k) ∧
    (∀ q : String, q ≠ p → k ∈ ownedS s q → k ∉ ownedS s p →
        mget (invalidateFile s p).jsonSchemas k = mget s.jsonSchemas k) := by
  refine ⟨inv_objs_mget s p k, inv_schemas_mget s p k, ?_, ?_⟩
  · intro q _ _ hnotp
    rw [inv_objs_mget, if_neg hnotp]
  · intro q _ _ hnotp
    rw [inv_schemas_mget, if_neg hnotp]

/-- C1 (witness): invalidating a third path `C` leaves the entity `X`
owned by `B` untouched. -/
theorem c1_amended_witness :
    ("X" ∈ ownedO cexRegAB "B") ∧ ("X" ∉ ownedO cexRegAB "C") ∧ ("B" ≠ ("C" : String)) ∧
    mget (invalidateFile cexRegAB "C").jsonObjs "X" = mget cexRegAB.jsonObjs "X" :=
  ⟨by decide, by decide, by decide,
   (c1_amended cexRegAB "C" "X").2.2.1 "B" (by decide) (by decide) (by decide)⟩

/-! ## C2 -/

/-- C2: every full validation pass validates entities in an order that
splits into a prefix of schema validations followed by a suffix of
object validations, the prefix covering every schema currently in the
registry and the suffix every object — so every schema's validation
completes before any object's begins. -/
theorem c2_schemas_before_objects (ctx : Ctx) (s : RegState) :
    ∃ pre post,
      (validateEntities ctx s).2 = pre ++ post ∧
      (∀ x ∈ pre, x.2 = EntityKind.schema) ∧
      (∀ x ∈ post, x.2 = EntityKind.obj) ∧
      (∀ k, mhas s.jsonSchemas k = true → (k, EntityKind.schema) ∈ pre) ∧
      (∀ k, mhas s.jsonObjs k = true → (k, EntityKind.obj) ∈ post) := by
  refine ⟨s.jsonSchemas.map (fun ke => (ke.1, EntityKind.schema)),
          s.jsonObjs.map (fun ke => (ke.1, EntityKind.obj)),
          vE_trace ctx s, ?_, ?_, ?_, ?_⟩
  · intro x hx
    rcases List.mem_map.mp hx with ⟨ke, _, rfl⟩
    rfl
  · intro x hx
    rcases List.mem_map.mp hx with ⟨ke, _, rfl⟩
    rfl
  · intro k hk
    rw [mhas_eq_isSome] at hk
    rcases Option.isSome_iff_exists.mp hk with ⟨v, hv⟩
    exact List.mem_map.mpr ⟨(k, v), mget_some_mem hv, rfl⟩
  · intro k hk
    rw [mhas_eq_isSome] at hk
    rcases Option.isSome_iff_exists.mp hk with ⟨v, hv⟩
    exact List.mem_map.mpr ⟨(k, v), mget_some_mem hv, rfl⟩

/-- C2 (witness): the ordering statement applied to a concrete registry
with one schema and one object. -/
theorem c2_witness :
    ∃ pre post,
      (validateEntities ctxT stW).2 = pre ++ post ∧
      (∀ x ∈ pre, x.2 = EntityKind.schema) ∧
      (∀ x ∈ post, x.2 = EntityKind.obj) ∧
      (∀ k, mhas stW.jsonSchemas k = true → (k, EntityKind.schema) ∈ pre) ∧
      (∀ k, mhas stW.jsonObjs k = true → (k, EntityKind.obj) ∈ post) :=
  c2_schemas_before_objects ctxT stW

/-! ## C4 -/

/-- C4: for every entity, `validateEntity` begins its validation result
with exactly one integrity error per reference whose source path lies
outside the examples region and whose id is in neither main index; the
error's `instancePath` is the slash-converted source path (with the
literal path `root` mapping to `/`), its keyword is empty, and its
message names the missing identifier. -/
theorem c4_unresolved_ref_errors (ctx : Ctx) (sc ob ab : JsMap JsonEntity) (e : JsonEntity) :
    (∃ tail, (validateEntity ctx sc ob ab e).1.validation =
      some (((e.gtsRefs.filter (fun r => !(isInExamples r.sourcePath) &&
          !(mhas sc r.id || mhas ob r.id))).map (fun r =>
        ({ instancePath := convertSourcePath r.sourcePath
           schemaPath := "#"
           keyword := ""
           message := "GTS reference not found: " ++ r.id
           params := [("gtsId", r.id), ("sourcePath", r.sourcePath)] } : ValidationError))) ++ tail)) ∧
    convertSourcePath "root" = "/" := by
  constructor
  · refine ⟨phaseBTail ctx sc e, ?_⟩
    rw [validateEntity_eq]
    rfl
  · decide

/-! ## C5 -/

/-- C5: an unresolved reference at source path `examples[0].gtsIid` or
`allOf[0].examples` produces no integrity error, while an unresolved
reference at `properties.examples.gtsIid` produces exactly one, and only
the latter materializes an absent-entity placeholder. -/
theorem c5_examples_exemption :
    (validateEntity ctxT [] [] [] cex5E).1.validation =
      some [{ instancePath := "/properties/examples/gtsIid"
              schemaPath := "#"
              keyword := ""
              message := "GTS reference not found: missing3"
              params := [("gtsId", "missing3"),
                         ("sourcePath", "properties.examples.gtsIid")] }] ∧
    keysOf (validateEntity ctxT [] [] [] cex5E).2 = ["missing3"] := by
  decide

/-! ## C6 -/

theorem consumeLit_self_append (l xs : List Char) : consumeLit l (l ++ xs) = some xs := by
  induction l with
  | nil => rfl
  | cons c r ih => simp [consumeLit, ih]

/-- C6 (counterexample): the registry holds the schema `S`; `resolveSchema`
resolves the vendor-prefixed form `gts://S`, but the Phase A existence
check uses the raw reference id, so a `gtsRef` with id `gts://S` produces
an integrity error while the bare id `S` does not — prefixed and bare
forms do not behave alike in the Phase A check. -/
theorem c6_counterexample :
    (resolveSchema stW.jsonSchemas "gts://S").isSome = true ∧
    (phaseA stW.jsonSchemas [] [] [{ id := "S", sourcePath := "a" }]).1 = [] ∧
    (phaseA stW.jsonSchemas [] [] [{ id := "gts://S", sourcePath := "a" }]).1
      = [{ instancePath := "/a", schemaPath := "#", keyword := ""
           message := "GTS reference not found: gts://S"
           params := [("gtsId", "gts://S"), ("sourcePath", "a")] }] := by
  decide

/-- C6 (amended): `resolveSchema` (used for `$ref` and `schemaId`
resolution) strips the vendor prefix before lookup, so vendor-prefixed
and bare forms of an id resolve identically there; the Phase A
reference-integrity check, however, looks up the raw reference id
without stripping. -/
theorem c6_amended (sc ob ab : JsMap JsonEntity) (bare : String)
    (hb : consumeLit "gts://".toList bare.toList = none) (r : GtsRef)
    (hex : isInExamples r.sourcePath = false) :
    resolveSchema sc ("gts://" ++ bare) = resolveSchema sc bare ∧
    ((phaseA sc ob ab [r]).1 ≠ [] ↔ (mhas sc r.id || mhas ob r.id) = false) := by
  constructor
  · simp only [resolveSchema, normalizeGtsId]
    have hdata : ("gts://" ++ bare).toList = "gts://".toList ++ bare.toList := by
      show ("gts://" ++ bare).data = "gts://".data ++ bare.data
      exact String.data_append _ _
    rw [hdata, consumeLit_self_append, hb]
    congr 1
  · by_cases hm : (mhas sc r.id || mhas ob r.id) = true
    · simp [phaseA, hex, hm]
    · have hm2 : (mhas sc r.id || mhas ob r.id) = false := by simpa using hm
      simp [phaseA, hex, hm2]

/-- C6 (witness): the amended resolution statement at the bare id `S`. -/
theorem c6_amended_witness :
    consumeLit "gts://".toList "S".toList = none ∧
    isInExamples "a" = false ∧
    resolveSchema stW.jsonSchemas ("gts://" ++ "S") = resolveSchema stW.jsonSchemas "S" :=
  ⟨by decide, by decide,
   (c6_amended stW.jsonSchemas [] [] "S" (by decide)
     { id := "x", sourcePath := "a" } (by decide)).1⟩

/-! ## C7 -/

/-- C7 (counterexample): `reset()` does not clear the absent-entity
placeholder map: starting from a registry whose placeholder map holds
the key `Z`, the key is still there after `reset()`. -/
theorem c7_counterexample :
    keysOf (reset cexAbsent).absentGtsEntities = ["Z"] ∧
    keysOf cexAbsent.absentGtsEntities = ["Z"] := by
  decide

/-- C7 (amended): `reset()` empties `jsonSchemas`, `jsonObjs`,
`jsonFiles`, `invalidFiles`, the per-path ownership maps and the fetch
cache, and clears the default-file pointer, but leaves
`absentGtsEntities` untouched. -/
theorem c7_amended (s : RegState) :
    reset s = { emptyRegistry with absentGtsEntities := s.absentGtsEntities } ∧
    getDefaultFilePath (reset s) = none ∧
    getDefaultFile (reset s) = none := by
  exact ⟨rfl, rfl, rfl⟩

/-! ## C8 -/

/-- C8: after `processFileContent` on a path, the path is tracked in
`jsonFiles` iff the content parsed and produced at least one recognized
entity; it is in `invalidFiles` iff parsing failed; and the ids
attributed to the path are exactly the recognized entity ids when
parsing succeeded and empty when it failed (so a parse-failed or
entity-free file registers no entities, and a parse-failed file is never
tracked). -/
theorem c8_file_classification (ctx : Ctx) (s : RegState) (p nm : String) (c : JsonContent) :
    mhas (processFileContent ctx s p nm c).jsonFiles p
      = (parseOkB ctx p nm c && !(newEnts ctx p nm c).isEmpty) ∧
    mhas (processFileContent ctx s p nm c).invalidFiles p = !(parseOkB ctx p nm c) ∧
    ownedO (processFileContent ctx s p nm c) p
      = (if parseOkB ctx p nm c = true then newObjIds ctx p nm c else []) ∧
    ownedS (processFileContent ctx s p nm c) p
      = (if parseOkB ctx p nm c = true then newSchIds ctx p nm c else []) := by
  refine ⟨?_, ?_, ?_, ?_⟩
  · rw [mhas_eq_isSome, P_files_mget, if_pos rfl]
    by_cases ho : parseOkB ctx p nm c = true
    · by_cases hne : (newEnts ctx p nm c).isEmpty = true
      · simp [ho, hne]
      · simp [ho, hne]
    · simp [ho]
  · rw [mhas_eq_isSome, P_invalid_mget, if_pos rfl]
    by_cases ho : parseOkB ctx p nm c = true <;> simp [ho]
  · rw [ownedO_P]
    by_cases ho : parseOkB ctx p nm c = true
    · by_cases hne : newObjIds ctx p nm c = []
      · simp [ho, hne]
      · simp [ho, hne]
    · simp [ho]
  · rw [ownedS_P]
    by_cases ho : parseOkB ctx p nm c = true
    · by_cases hne : newSchIds ctx p nm c = []
      · simp [ho, hne]
      · simp [ho, hne]
    · simp [ho]

/-! ## C9 -/

/-- C9: a full validation pass neither creates nor deletes entities: the
file maps are untouched, the entity-map key lists are unchanged, every
entity is unchanged except for its validation result, and every entity
ends up with a validation result attached. -/
theorem c9_validation_frame (ctx : Ctx) (s : RegState) (h : WF s) :
    (validateEntities ctx s).1.jsonFiles = s.jsonFiles ∧
    (validateEntities ctx s).1.invalidFiles = s.invalidFiles ∧
    (validateEntities ctx s).1.jsonFileObjs = s.jsonFileObjs ∧
    (validateEntities ctx s).1.jsonFileSchemas = s.jsonFileSchemas ∧
    keysOf (validateEntities ctx s).1.jsonSchemas = keysOf s.jsonSchemas ∧
    keysOf (validateEntities ctx s).1.jsonObjs = keysOf s.jsonObjs ∧
    (∀ k, (mget (validateEntities ctx s).1.jsonSchemas k).map stripV
        = (mget s.jsonSchemas k).map stripV) ∧
    (∀ k, (mget (validateEntities ctx s).1.jsonObjs k).map stripV
        = (mget s.jsonObjs k).map stripV) ∧
    (∀ k e, mget (validateEntities ctx s).1.jsonSchemas k = some e →
      e.validation.isSome = true) ∧
    (∀ k e, mget (validateEntities ctx s).1.jsonObjs k = some e →
      e.validation.isSome = true) := by
  refine ⟨vE_jsonFiles ctx s, vE_invalidFiles ctx s, vE_jsonFileObjs ctx s,
    vE_jsonFileSchemas ctx s, vE_keys_schemas ctx s, vE_keys_objs ctx s,
    fun k => vE_sview_schemas ctx h.1 k, fun k => vE_sview_objs ctx h.1 h.2.1 k, ?_, ?_⟩
  · intro k e he
    have he2 : mget (vE ctx s).jsonSchemas k = some e := he
    rw [vE_schemas_mget ctx h.1 k] at he2
    cases hg : mget s.jsonSchemas k with
    | none => rw [hg] at he2; simp at he2
    | some a =>
      rw [hg] at he2
      simp only [Option.map_some', Option.some.injEq] at he2
      rw [← he2]
      rfl
  · intro k e he
    have he2 : mget (vE ctx s).jsonObjs k = some e := he
    rw [vE_objs_mget ctx h.1 h.2.1 k] at he2
    cases hg : mget s.jsonObjs k with
    | none => rw [hg] at he2; simp at he2
    | some a =>
      rw [hg] at he2
      simp only [Option.map_some', Option.some.injEq] at he2
      rw [← he2]
      rfl

/-- C9 (witness): the frame property applied to a concrete registry. -/
theorem c9_validation_frame_witness :
    WF stW ∧ keysOf (validateEntities ctxT stW).1.jsonSchemas = keysOf stW.jsonSchemas :=
  ⟨by unfold WF ndk; decide, (c9_validation_frame ctxT stW (by unfold WF ndk; decide)).2.2.2.2.1⟩

/-! ## C10 -/

/-- C10: `invalidateFile` never touches the default-file pointer: after
`setDefaultFile p` and `invalidateFile p`, `getDefaultFilePath` still
returns `p` while `getDefaultFile` returns nothing; the pointer is
cleared by `reset`, no ingestion or validation operation changes it, and
`setDefaultFile` with no path falls back to the first tracked file's
path (or null). -/
theorem c10_default_file_pointer (ctx : Ctx) (s : RegState) (p : String) (hp : p ≠ "") :
    getDefaultFilePath (invalidateFile (setDefaultFile s (some p)) p) = some p ∧
    getDefaultFile (invalidateFile (setDefaultFile s (some p)) p) = none ∧
    (reset (invalidateFile (setDefaultFile s (some p)) p)).defaultFilePath = none ∧
    (∀ (t : RegState) (q : String), (invalidateFile t q).defaultFilePath = t.defaultFilePath) ∧
    (∀ (t : RegState) (q nm : String) (c : JsonContent),
      (processFileContent ctx t q nm c).defaultFilePath = t.defaultFilePath) ∧
    (∀ t : RegState, (validateEntities ctx t).1.defaultFilePath = t.defaultFilePath) ∧
    (∀ t : RegState, (setDefaultFile t none).defaultFilePath =
      (match t.jsonFiles.head? with
       | some kv => if kv.2.path = "" then none else some kv.2.path
       | none => none)) := by
  have hdef : (invalidateFile (setDefaultFile s (some p)) p).defaultFilePath = some p := by
    rw [inv_default]
    simp [setDefaultFile, hp]
  refine ⟨?_, ?_, ?_, fun t q => inv_default t q, fun t q nm c => P_default ctx t q nm c,
    fun t => vE_defaultFilePath ctx t, fun t => rfl⟩
  · simp [getDefaultFilePath, hdef, hp]
  · simp only [getDefaultFile, hdef, hp, if_false]
    rw [inv_files_mget]
    simp
  · rfl

/-- C10 (witness): the pointer behaviour at a concrete path. -/
theorem c10_witness :
    ("f" : String) ≠ "" ∧
    getDefaultFilePath (invalidateFile (setDefaultFile emptyRegistry (some "f")) "f")
      = some "f" :=
  ⟨by decide, (c10_default_file_pointer ctxT emptyRegistry "f" (by decide)).1⟩

end GtsKit
